import Mathlib

/-! # hexo-floating: hover tooltip tags (`index.js`)

A shallow embedding of the plugin's tag handlers.

* A JavaScript string is a sequence of 16-bit code units (`JSString`).
* The module-level object `hoverContent = {}` is a `Store`: its own
  properties, read through the prototype chain of a plain object.
* The generator context `ctx` supplies the two services the handlers call,
  `ctx.args.map` and `ctx.render.renderSync`; they are not part of this
  repository and are taken as parameters (`Ctx`).
* `Math.random().toString(36)` is taken as a parameter of each handler.
* `encodeURIComponent` / `decodeURIComponent` follow ECMA-262 (`Encode`,
  `Decode`), including the `URIError` they throw.
-/

namespace HexoFloating

/-! ## Strings -/

/-- A UTF-16 code unit. -/
abbrev CodeUnit := Fin 65536

/-- A JavaScript string value: a finite sequence of UTF-16 code units. -/
abbrev JSString := List CodeUnit

/-- The code unit with the given number. -/
def unit (n : Nat) : CodeUnit := Fin.ofNat n

/-- The code units of a source-text literal (the literals of `index.js` used
here are ASCII, one code unit per character). -/
def lit (s : String) : JSString := s.toList.map (fun c => unit c.toNat)

/-- Exceptions thrown by the modelled code. -/
inductive JSError where
  | uriError
  | referenceError (name : String)
  deriving DecidableEq, Repr

instance instDecidableEqExcept {ε α : Type} [DecidableEq ε] [DecidableEq α] :
    DecidableEq (Except ε α) := fun a b =>
  match a, b with
  | .ok x, .ok y => if h : x = y then isTrue (by rw [h]) else isFalse (by intro h2; cases h2; exact h rfl)
  | .error x, .error y =>
    if h : x = y then isTrue (by rw [h]) else isFalse (by intro h2; cases h2; exact h rfl)
  | .ok _, .error _ => isFalse (by intro h; cases h)
  | .error _, .ok _ => isFalse (by intro h; cases h)

/-! ## `encodeURIComponent` (ECMA-262 `Encode` with the empty extra set) -/

/-- Membership in the always-unescaped set: ASCII letters, decimal digits and
`- _ . ! ~ * ' ( )`. -/
def isUnescaped (c : CodeUnit) : Bool :=
  let n := c.val
  (65 ≤ n && n ≤ 90) || (97 ≤ n && n ≤ 122) || (48 ≤ n && n ≤ 57) ||
  n = 45 || n = 95 || n = 46 || n = 33 || n = 126 || n = 42 || n = 39 || n = 40 || n = 41

/-- Upper-case hexadecimal digit of a value below 16. -/
def hexDigit (d : Nat) : CodeUnit := if d < 10 then unit (48 + d) else unit (55 + d)

/-- The escape `%XX` of one octet. -/
def pctOctet (b : Nat) : JSString := [unit 37, hexDigit (b / 16), hexDigit (b % 16)]

/-- The UTF-8 octets of a code point. -/
def utf8Octets (cp : Nat) : List Nat :=
  if cp < 0x80 then [cp]
  else if cp < 0x800 then [0xC0 + cp / 64, 0x80 + cp % 64]
  else if cp < 0x10000 then [0xE0 + cp / 4096, 0x80 + cp / 64 % 64, 0x80 + cp % 64]
  else [0xF0 + cp / 262144, 0x80 + cp / 4096 % 64, 0x80 + cp / 64 % 64, 0x80 + cp % 64]

/-- The escaped form of a code point: each UTF-8 octet as `%XX`. -/
def pctEncode (cp : Nat) : JSString := (utf8Octets cp).flatMap pctOctet

/-- Leading (high) surrogate code unit. -/
def isHighSurrogate (c : CodeUnit) : Bool := 0xD800 ≤ c.val && c.val < 0xDC00

/-- Trailing (low) surrogate code unit. -/
def isLowSurrogate (c : CodeUnit) : Bool := 0xDC00 ≤ c.val && c.val < 0xE000

/-- The code point of a surrogate pair. -/
def pairCodePoint (hi lo : CodeUnit) : Nat :=
  (hi.val - 0xD800) * 0x400 + (lo.val - 0xDC00) + 0x10000

/-- The built-in `encodeURIComponent(s)`: unescaped units are copied, every other code point
is replaced by the escapes of its UTF-8 octets, and an unpaired surrogate
throws `URIError`. -/
def encodeURIComponent : JSString → Except JSError JSString
  | [] => .ok []
  | c :: rest =>
    if isUnescaped c then
      match encodeURIComponent rest with
      | .ok r => .ok (c :: r)
      | .error e => .error e
    else if isLowSurrogate c then .error .uriError
    else if isHighSurrogate c then
      match rest with
      | [] => .error .uriError
      | d :: rest2 =>
        if isLowSurrogate d then
          match encodeURIComponent rest2 with
          | .ok r => .ok (pctEncode (pairCodePoint c d) ++ r)
          | .error e => .error e
        else .error .uriError
    else
      match encodeURIComponent rest with
      | .ok r => .ok (pctEncode c.val ++ r)
      | .error e => .error e

/-! ## `decodeURIComponent` (ECMA-262 `Decode` with the empty preserve set) -/

/-- Value of a hexadecimal digit, if the unit is one. -/
def hexVal (c : CodeUnit) : Option Nat :=
  let n := c.val
  if 48 ≤ n ∧ n ≤ 57 then some (n - 48)
  else if 65 ≤ n ∧ n ≤ 70 then some (n - 55)
  else if 97 ≤ n ∧ n ≤ 102 then some (n - 87)
  else none

/-- The operation `ParseHexOctet`: the octet written by two hexadecimal digits. -/
def parseHexOctet (h l : CodeUnit) : Option Nat :=
  match hexVal h, hexVal l with
  | some a, some b => some (a * 16 + b)
  | _, _ => none

/-- A continuation escape `%XX` whose octet is `10xxxxxx`: its six payload bits. -/
def contBits (p h l : CodeUnit) : Option Nat :=
  if p = unit 37 then
    match parseHexOctet h l with
    | some b => if 0x80 ≤ b ∧ b < 0xC0 then some (b - 0x80) else none
    | none => none
  else none

/-- The operation `UTF16EncodeCodePoint`. -/
def utf16Encode (cp : Nat) : JSString :=
  if cp < 0x10000 then [unit cp]
  else [unit (0xD800 + (cp - 0x10000) / 0x400), unit (0xDC00 + (cp - 0x10000) % 0x400)]

/-- One escape sequence of `Decode`, read just after its leading `%`: the
first octet `B`, then as many continuation escapes as `B` announces. Yields the
decoded code units and the rest of the input, or `none` where `Decode` throws
`URIError`: an incomplete escape, a non-hexadecimal digit, or an invalid UTF-8
sequence (stray continuation octet, overlong form, surrogate, above U+10FFFF). -/
def readEscape (rest : JSString) : Option (JSString × JSString) :=
  match rest with
  | h1 :: l1 :: r1 =>
    match parseHexOctet h1 l1 with
    | none => none
    | some b =>
      if b < 0x80 then some ([unit b], r1)
      else if b < 0xC0 then none
      else if b < 0xE0 then
        match r1 with
        | p2 :: h2 :: l2 :: r2 =>
          match contBits p2 h2 l2 with
          | some b2 =>
            let cp := (b - 0xC0) * 64 + b2
            if 0x80 ≤ cp then some (utf16Encode cp, r2) else none
          | none => none
        | _ => none
      else if b < 0xF0 then
        match r1 with
        | p2 :: h2 :: l2 :: p3 :: h3 :: l3 :: r3 =>
          match contBits p2 h2 l2, contBits p3 h3 l3 with
          | some b2, some b3 =>
            let cp := (b - 0xE0) * 4096 + b2 * 64 + b3
            if 0x800 ≤ cp ∧ ¬ (0xD800 ≤ cp ∧ cp < 0xE000) then some (utf16Encode cp, r3)
            else none
          | _, _ => none
        | _ => none
      else if b < 0xF8 then
        match r1 with
        | p2 :: h2 :: l2 :: p3 :: h3 :: l3 :: p4 :: h4 :: l4 :: r4 =>
          match contBits p2 h2 l2, contBits p3 h3 l3, contBits p4 h4 l4 with
          | some b2, some b3, some b4 =>
            let cp := (b - 0xF0) * 262144 + b2 * 4096 + b3 * 64 + b4
            if 0x10000 ≤ cp ∧ cp < 0x110000 then some (utf16Encode cp, r4) else none
          | _, _, _ => none
        | _ => none
      else none
  | _ => none

/-- A decoded group of units in front of the decoded tail. -/
def prependOk (u : JSString) : Except JSError JSString → Except JSError JSString
  | .ok r => .ok (u ++ r)
  | .error e => .error e

/-- The loop of `Decode`. It runs while `k < len` and `k` grows in every
round, so `len` rounds always suffice; `fuel` is that bound. -/
def decodeLoop : Nat → JSString → Except JSError JSString
  | _, [] => .ok []
  | 0, _ :: _ => .error .uriError
  | fuel + 1, c :: rest =>
    if c = unit 37 then
      match readEscape rest with
      | some (u, r) => prependOk u (decodeLoop fuel r)
      | none => .error .uriError
    else prependOk [c] (decodeLoop fuel rest)

/-- The built-in `decodeURIComponent(s)`. -/
def decodeURIComponent (s : JSString) : Except JSError JSString := decodeLoop s.length s

/-- The method `String.prototype.isWellFormed`: no unpaired surrogate code unit. -/
def isWellFormed : JSString → Bool
  | [] => true
  | c :: rest =>
    if isLowSurrogate c then false
    else if isHighSurrogate c then
      match rest with
      | [] => false
      | d :: rest2 => isLowSurrogate d && isWellFormed rest2
    else isWellFormed rest

/-- What `encodeURIComponent` can write: an unescaped character or `%`. -/
def isUriChar (c : CodeUnit) : Bool := isUnescaped c || c = unit 37

/-- A code point that has a UTF-8 encoding: a Unicode scalar value. -/
def IsScalar (cp : Nat) : Prop := cp < 1114112 ∧ ¬ (55296 ≤ cp ∧ cp < 57344)

/-! ## White space and the two regular expressions of `processHoverContent` -/

/-- The `WhiteSpace` and `LineTerminator` code points: what `String.prototype.trim`
removes and what `\s` matches. -/
def isWhiteSpace (c : CodeUnit) : Bool :=
  let n := c.val
  (9 ≤ n && n ≤ 13) || n = 32 || n = 160 || n = 0x1680 || (0x2000 ≤ n && n ≤ 0x200A) ||
  n = 0x2028 || n = 0x2029 || n = 0x202F || n = 0x205F || n = 0x3000 || n = 0xFEFF

/-- The method call `s.trim()`. -/
def trim (s : JSString) : JSString :=
  ((s.dropWhile isWhiteSpace).reverse.dropWhile isWhiteSpace).reverse

/-- The text after the first occurrence of `pat` in a string, if there is one. -/
def afterFirst (pat : JSString) : JSString → Option JSString
  | [] => none
  | c :: rest =>
    if pat.isPrefixOf (c :: rest) then some ((c :: rest).drop pat.length)
    else afterFirst pat rest

/-- The opening tag `<p>`. -/
def pOpen : JSString := lit "<p>"

/-- The closing tag `</p>`. -/
def pClose : JSString := lit "</p>"

/-- Number of matches of `/<p>.*?<\/p>/gs`, scanning left to right: the next
match starts at the first `<p>` and, `.*?` being lazy and `.` matching every
character, ends with the first `</p>` after it; the search resumes after the
match. Every round consumes at least seven code units, `fuel` bounds the rounds. -/
def paragraphMatches : Nat → JSString → Nat
  | 0, _ => 0
  | fuel + 1, s =>
    match afterFirst pOpen s with
    | none => 0
    | some r =>
      match afterFirst pClose r with
      | none => 0
      | some r2 => paragraphMatches fuel r2 + 1

/-- The value of `rendered.match(/<p>.*?<\/p>/gs)?.length`, with 0 for no match (`null`). -/
def paragraphCount (rendered : JSString) : Nat := paragraphMatches rendered.length rendered

/-- The value of `rendered.replace(/^\s*<p>([\s\S]*)<\/p>\s*$/, '$1')`. The pattern is
anchored at both ends, so it matches the whole string or nothing: leading white
space (all of it, `<` not being white space), `<p>`, the group, `</p>`, and
trailing white space (all of it); the replacement is the group. -/
def stripOuterParagraph (rendered : JSString) : JSString :=
  let a := rendered.dropWhile isWhiteSpace
  if pOpen.isPrefixOf a then
    let b := ((a.drop 3).reverse.dropWhile isWhiteSpace)
    if pClose.reverse.isPrefixOf b then (b.drop 4).reverse else rendered
  else rendered

/-- A rendering that contains two or more `<p>...</p>` paragraphs, in the words
of the specification: two segments, each from a `<p>` to a `</p>` after it, the
second starting after the first has ended. -/
def HasTwoParagraphs (r : JSString) : Prop :=
  ∃ a b c d e : JSString,
    r = a ++ lit "<p>" ++ b ++ lit "</p>" ++ c ++ lit "<p>" ++ d ++ lit "</p>" ++ e

/-! ## Values, the `hoverContent` object and the generator context -/

/-- The values a property read of `hoverContent` can give: `undefined`, a stored
string, or an object or function inherited from `Object.prototype`, of which only
the truthiness and the `ToString` matter here. -/
inductive JSValue where
  | undefined
  | str (s : JSString)
  | object (toStr : JSString)
  deriving DecidableEq

/-- The conversion `ToBoolean`. -/
def JSValue.truthy : JSValue → Bool
  | .undefined => false
  | .str s => decide (s ≠ [])
  | .object _ => true

/-- The conversion `ToString`. -/
def JSValue.toJSString : JSValue → JSString
  | .undefined => lit "undefined"
  | .str s => s
  | .object r => r

/-- The conversion `ToBoolean` of a value that is `undefined` (`none`) or a string. -/
def truthyStr : Option JSString → Bool
  | none => false
  | some s => decide (s ≠ [])

/-- The conversion `ToString` of a value that is `undefined` (`none`) or a string, as done by a
template literal and by a property key. -/
def toStr : Option JSString → JSString
  | none => lit "undefined"
  | some s => s

/-- The own properties of `hoverContent`. The object is created by `{}`, so its
prototype is `Object.prototype`. -/
abbrev Store := List (JSString × JSString)

/-- The initial object, `const hoverContent = {}`. -/
def emptyStore : Store := []

/-- The text of a built-in function, in the form Node prints it. -/
def nativeFunction (name : JSString) : JSString :=
  lit "function " ++ name ++ lit "() \x7b [native code] \x7d"

/-- The names of the function-valued properties of `Object.prototype`, other
than `constructor`. -/
def objectPrototypeMethods : List JSString :=
  [lit "__defineGetter__", lit "__defineSetter__", lit "hasOwnProperty",
   lit "__lookupGetter__", lit "__lookupSetter__", lit "isPrototypeOf",
   lit "propertyIsEnumerable", lit "toString", lit "valueOf", lit "toLocaleString"]

/-- A property read on `Object.prototype`: the accessor `__proto__` gives the
receiver's prototype (`Object.prototype` itself, printed `[object Object]`),
`constructor` gives `Object`, the method names give built-in functions. -/
def objectPrototypeGet (key : JSString) : JSValue :=
  if key = lit "__proto__" then .object (lit "[object Object]")
  else if key = lit "constructor" then .object (nativeFunction (lit "Object"))
  else if key ∈ objectPrototypeMethods then .object (nativeFunction key)
  else .undefined

/-- The read `hoverContent[key]`: an own property, else the prototype chain. -/
def Store.get (st : Store) (key : JSString) : JSValue :=
  match st.lookup key with
  | some v => .str v
  | none => objectPrototypeGet key

/-- The assignment `hoverContent[key] = v` for a string `v`: an own property is overwritten;
otherwise the inherited setter of `__proto__` is called, which ignores a value
that is not an object; otherwise an own property is created. -/
def Store.set (st : Store) (key : JSString) (v : JSString) : Store :=
  match st.lookup key with
  | some _ => (key, v) :: st.filter (fun p => p.1 ≠ key)
  | none => if key = lit "__proto__" then st else (key, v) :: st

/-- The services of the generator the handlers use. `argsMap args keys others p`
is property `p` of the object `ctx.args.map(args, keys, others)` (`undefined` or
a string); `renderSync text engine` is
`ctx.render.renderSync({ text, engine })`. -/
structure Ctx where
  argsMap : List JSString → List JSString → Option (List JSString) → JSString → Option JSString
  renderSync : JSString → JSString → JSString

/-! ## The functions of `index.js` -/

/-- The function `generateUniqueId`, for `random36 = Math.random().toString(36)`:
`'hover-' + random36.substring(2, 11)`. -/
def generateUniqueId (random36 : JSString) : JSString :=
  lit "hover-" ++ (random36.drop 2).take 9

/-- The function `processHoverContent(content, hexo)` together with the texts it passed to
`renderSync`. -/
def processHoverContentTraced (hexo : Ctx) (content : Option JSString) :
    JSString × List JSString :=
  match content with
  | none => ([], [])
  | some c =>
    if c = [] ∨ trim c = [] then ([], [])
    else
      let rendered := hexo.renderSync c (lit "markdown")
      if paragraphCount rendered = 1 then (stripOuterParagraph rendered, [c])
      else (rendered, [c])

/-- The function `processHoverContent(content, hexo)`. -/
def processHoverContent (hexo : Ctx) (content : Option JSString) : JSString :=
  (processHoverContentTraced hexo content).1

/-- The span both `hover` and `explain` return. -/
def hoverSpan (uniqueId encoded displayText : JSString) : JSString :=
  lit "<span id=\"" ++ uniqueId ++
    lit "\" class=\"floating-hover-target\" data-hover-content=\"" ++ encoded ++
    lit "\">" ++ displayText ++ lit "</span>"

/-- The inline error of `hover`. -/
def noHoverContentError (name : Option JSString) : JSString :=
  lit "<span style=\"color:red\">Error: No hover content found for name '" ++ toStr name ++
    lit "'.</span>"

/-- The inline error of `explain`. -/
def noExplainContentError : JSString :=
  lit "<span style=\"color:red\">Error: No content provided in explain tag.</span>"

/-- What a tag handler gives: the returned string or the exception thrown, and
the `hoverContent` object afterwards. -/
abbrev Outcome := Except JSError JSString × Store

/-- The handler `sethover(ctx)`. -/
def sethover (ctx : Ctx) (args : List JSString) (content : Option JSString)
    (hoverContent : Store) : Outcome :=
  let name := ctx.argsMap args [lit "name"] none (lit "name")
  if truthyStr name then
    (.ok [], hoverContent.set (toStr name) (processHoverContent ctx content))
  else (.ok [], hoverContent)

/-- The handler `hover(ctx)`. -/
def hover (ctx : Ctx) (random36 : JSString) (args : List JSString) (content : Option JSString)
    (hoverContent : Store) : Outcome :=
  let name := ctx.argsMap args [lit "name"] none (lit "name")
  if !truthyStr name || !(hoverContent.get (toStr name)).truthy then
    (.ok (noHoverContentError name), hoverContent)
  else
    let uniqueId := generateUniqueId random36
    let displayText := processHoverContent ctx content
    let storedContent := hoverContent.get (toStr name)
    match encodeURIComponent storedContent.toJSString with
    | .ok enc => (.ok (hoverSpan uniqueId enc displayText), hoverContent)
    | .error e => (.error e, hoverContent)

/-- The handler `explain(ctx)`. -/
def explain (ctx : Ctx) (random36 : JSString) (args : List JSString) (content : Option JSString)
    (hoverContent : Store) : Outcome :=
  let display := ctx.argsMap args [lit ""] (some [lit "display"]) (lit "display")
  let hoverText := content
  if !truthyStr hoverText then (.ok noExplainContentError, hoverContent)
  else
    let uniqueId := generateUniqueId random36
    let displayText := processHoverContent ctx display
    let processedHoverText := processHoverContent ctx hoverText
    match encodeURIComponent processedHoverText with
    | .ok enc => (.ok (hoverSpan uniqueId enc displayText), hoverContent)
    | .error e => (.error e, hoverContent)

/-- A `sethover` tag as written in a post: its arguments and its body. -/
abbrev SethoverCall := List JSString × Option JSString

/-- The `hoverContent` object after a sequence of `sethover` tags. -/
def runSethovers (ctx : Ctx) (calls : List SethoverCall) (hoverContent : Store) : Store :=
  calls.foldl (fun st call => (sethover ctx call.1 call.2 st).2) hoverContent

/-! ## Loading the script -/

/-- The three functions handed to `hexo.extend.tag.register`. Each is the outer
function of its declaration, `function sethover(ctx) { return function (args,
content) ... }`. -/
inductive TagFunction where
  | sethover
  | hover
  | explain
  deriving DecidableEq

/-- What a call `f(args, content)` of a registered function returns: `html` for a
string, `closure f x` for the inner function of `f` with `ctx` bound to `x`. -/
inductive CallResult where
  | html (s : JSString)
  | closure (f : TagFunction) (boundCtx : List JSString)
  deriving DecidableEq

/-- A call of a registered tag function with `(args, content)`: the first
argument is bound to the parameter `ctx` and the inner function is returned. -/
def callRegistered (f : TagFunction) (args : List JSString) (_content : Option JSString) :
    CallResult :=
  .closure f args

/-- One `hexo.extend.tag.register(name, fn, ends)`. -/
structure TagEntry where
  name : JSString
  fn : TagFunction
  ends : Bool
  deriving DecidableEq

/-- The registrations held by the generator: injectors (position and the string
the callback returns) and tags. -/
structure Generator where
  injectors : List (JSString × JSString)
  tags : List TagEntry
  deriving DecidableEq

/-- The string returned by the injector callback: the style sheet, then the
page script (both fixed texts of `index.js`, parameters here). -/
def injectedMarkup (styleBody scriptBody : JSString) : JSString :=
  lit "<style>" ++ styleBody ++ lit "</style>\n    <script>" ++ scriptBody ++ lit "</script>"

/-- The function `injectCSS(hexo)`. -/
def injectCSS (styleBody scriptBody : JSString) (hexo : Generator) : Generator :=
  { hexo with injectors := hexo.injectors ++ [(lit "head_end", injectedMarkup styleBody scriptBody)] }

/-- The call `hexo.extend.tag.register(name, fn, ends)`. -/
def registerTag (hexo : Generator) (name : JSString) (fn : TagFunction) ( ends : Bool) :
    Generator :=
  { hexo with tags := hexo.tags ++ [{ name := name, fn := fn, ends := ends }] }

/-- The identifiers declared by the module itself. -/
def moduleDeclarations : List String :=
  ["hoverContent", "generateUniqueId", "processHoverContent", "sethover", "hover", "explain",
   "injectCSS"]

/-- Evaluation of an identifier: a `ReferenceError` when nothing binds it. -/
def resolveIdentifier (outer : List String) (x : String) : Except JSError Unit :=
  if x ∈ moduleDeclarations ++ outer then .ok () else .error (.referenceError x)

/-- The statements at the top level of `index.js`, run with the identifiers
`outer` bound around the module:
`injectCSS(ctx); hexo.extend.tag.register('sethover', sethover, true)` and the
same for `hover` and `explain`. Where `ctx` is bound it is taken to be the
generator. -/
def loadScript (outer : List String) (styleBody scriptBody : JSString) (g : Generator) :
    Except JSError Generator :=
  match resolveIdentifier outer "ctx" with
  | .error e => .error e
  | .ok _ =>
    let g1 := injectCSS styleBody scriptBody g
    match resolveIdentifier outer "hexo" with
    | .error e => .error e
    | .ok _ =>
      .ok (registerTag (registerTag (registerTag g1 (lit "sethover") .sethover true)
        (lit "hover") .hover true) (lit "explain") .explain true)

/-! ## A context for concrete runs -/

/-- An argument mapper in the manner of the theme helper behind `ctx.args.map`:
a key `k` takes the text after `k:` of the first argument that starts so, and a
positional name takes all arguments joined by spaces. -/
def sampleArgsMap (args : List JSString) (keys : List JSString) (others : Option (List JSString))
    (p : JSString) : Option JSString :=
  if p ∈ keys then
    (args.filterMap (fun a =>
      if (p ++ lit ":").isPrefixOf a then some (a.drop (p.length + 1)) else none)).head?
  else
    match others with
    | some o => if p ∈ o ∧ args ≠ [] then some (List.intercalate (lit " ") args) else none
    | none => none

/-- A renderer that wraps its text in one paragraph, as a markdown engine does
for a single line of plain text. -/
def sampleRender (text _engine : JSString) : JSString := lit "<p>" ++ text ++ lit "</p>\n"

/-- The context used for concrete runs. -/
def sampleCtx : Ctx := { argsMap := sampleArgsMap, renderSync := sampleRender }

/-! ## Facts about the URI coding -/

theorem unit_val {n : Nat} (h : n < 65536) : (unit n).val = n := by
  simp only [unit, Fin.ofNat, Nat.reduceAdd]
  omega

theorem unit_val_self (c : CodeUnit) : unit c.val = c := by
  apply Fin.ext
  simp only [unit, Fin.ofNat]
  have := c.isLt
  omega

theorem hexVal_hexDigit {d : Nat} (h : d < 16) : hexVal (hexDigit d) = some d := by
  interval_cases d <;> rfl

theorem parseHexOctet_hexDigit {b : Nat} (h : b < 256) :
    parseHexOctet (hexDigit (b / 16)) (hexDigit (b % 16)) = some b := by
  have h1 : b / 16 < 16 := by omega
  have h2 : b % 16 < 16 := by omega
  simp only [parseHexOctet, hexVal_hexDigit h1, hexVal_hexDigit h2]
  congr 1
  omega

theorem contBits_hexDigit {x : Nat} (h : x < 64) :
    contBits (unit 37) (hexDigit ((128 + x) / 16)) (hexDigit ((128 + x) % 16)) = some x := by
  have hb : 128 + x < 256 := by omega
  have hr : 128 ≤ 128 + x ∧ 128 + x < 192 := by omega
  have hx : 128 + x - 128 = x := by omega
  unfold contBits
  rw [if_pos rfl, parseHexOctet_hexDigit hb]
  show (if 128 ≤ 128 + x ∧ 128 + x < 192 then some (128 + x - 128) else none) = some x
  rw [if_pos hr, hx]

theorem readEscape_pct1 (b : Nat) (e : JSString) (h : b < 128) :
    readEscape (hexDigit (b / 16) :: hexDigit (b % 16) :: e) = some ([unit b], e) := by
  have hb : b < 256 := by omega
  simp only [readEscape, parseHexOctet_hexDigit hb, if_pos h]

theorem readEscape_pct2 (cp : Nat) (e : JSString) (h1 : 128 ≤ cp) (h2 : cp < 2048) :
    readEscape (hexDigit ((192 + cp / 64) / 16) :: hexDigit ((192 + cp / 64) % 16)
        :: (pctOctet (128 + cp % 64) ++ e))
      = some (utf16Encode cp, e) := by
  have hb : 192 + cp / 64 < 256 := by omega
  have hx : cp % 64 < 64 := by omega
  have e1 : ¬ (192 + cp / 64 < 128) := by omega
  have e2 : ¬ (192 + cp / 64 < 192) := by omega
  have e3 : 192 + cp / 64 < 224 := by omega
  have e4 : (192 + cp / 64 - 192) * 64 + cp % 64 = cp := by omega
  simp only [pctOctet, List.cons_append, List.nil_append, readEscape,
    parseHexOctet_hexDigit hb, contBits_hexDigit hx, e1, e2, e3, e4, if_true, if_false, h1]

theorem readEscape_pct3 (cp : Nat) (e : JSString) (h1 : 2048 ≤ cp) (h2 : cp < 65536)
    (hs : ¬ (55296 ≤ cp ∧ cp < 57344)) :
    readEscape (hexDigit ((224 + cp / 4096) / 16) :: hexDigit ((224 + cp / 4096) % 16)
        :: (pctOctet (128 + cp / 64 % 64) ++ (pctOctet (128 + cp % 64) ++ e)))
      = some (utf16Encode cp, e) := by
  have hb : 224 + cp / 4096 < 256 := by omega
  have hx : cp / 64 % 64 < 64 := by omega
  have hy : cp % 64 < 64 := by omega
  have e1 : ¬ (224 + cp / 4096 < 128) := by omega
  have e2 : ¬ (224 + cp / 4096 < 192) := by omega
  have e3 : ¬ (224 + cp / 4096 < 224) := by omega
  have e4 : 224 + cp / 4096 < 240 := by omega
  have e5 : (224 + cp / 4096 - 224) * 4096 + cp / 64 % 64 * 64 + cp % 64 = cp := by omega
  have e6 : 2048 ≤ cp ∧ ¬ (55296 ≤ cp ∧ cp < 57344) := ⟨h1, hs⟩
  simp only [pctOctet, List.cons_append, List.nil_append, readEscape,
    parseHexOctet_hexDigit hb, contBits_hexDigit hx, contBits_hexDigit hy,
    e1, e2, e3, e4, e5, if_true, if_false, if_pos e6]

theorem readEscape_pct4 (cp : Nat) (e : JSString) (h1 : 65536 ≤ cp) (h2 : cp < 1114112) :
    readEscape (hexDigit ((240 + cp / 262144) / 16) :: hexDigit ((240 + cp / 262144) % 16)
        :: (pctOctet (128 + cp / 4096 % 64) ++ (pctOctet (128 + cp / 64 % 64)
          ++ (pctOctet (128 + cp % 64) ++ e))))
      = some (utf16Encode cp, e) := by
  have hb : 240 + cp / 262144 < 256 := by omega
  have hx : cp / 4096 % 64 < 64 := by omega
  have hy : cp / 64 % 64 < 64 := by omega
  have hz : cp % 64 < 64 := by omega
  have e1 : ¬ (240 + cp / 262144 < 128) := by omega
  have e2 : ¬ (240 + cp / 262144 < 192) := by omega
  have e3 : ¬ (240 + cp / 262144 < 224) := by omega
  have e4 : ¬ (240 + cp / 262144 < 240) := by omega
  have e5 : 240 + cp / 262144 < 248 := by omega
  have e6 : (240 + cp / 262144 - 240) * 262144 + cp / 4096 % 64 * 4096
      + cp / 64 % 64 * 64 + cp % 64 = cp := by omega
  have e7 : 65536 ≤ cp ∧ cp < 1114112 := ⟨h1, h2⟩
  simp only [pctOctet, List.cons_append, List.nil_append, readEscape,
    parseHexOctet_hexDigit hb, contBits_hexDigit hx, contBits_hexDigit hy,
    contBits_hexDigit hz, e1, e2, e3, e4, e5, e6, if_true, if_false, if_pos e7]

/-- Reading back the escape of a scalar value gives its UTF-16 form and
consumes exactly the escape. -/
theorem readEscape_pctEncode (cp : Nat) (e : JSString) (h : IsScalar cp) :
    ∃ t, pctEncode cp ++ e = unit 37 :: t ∧ readEscape t = some (utf16Encode cp, e) := by
  obtain ⟨hlt, hs⟩ := h
  by_cases c1 : cp < 128
  · have hu : utf16Encode cp = [unit cp] := by
      unfold utf16Encode
      rw [if_pos (by omega)]
    rw [hu]
    refine ⟨_, ?_, readEscape_pct1 cp e c1⟩
    simp [pctEncode, utf8Octets, c1, pctOctet]
  · by_cases c2 : cp < 2048
    · refine ⟨_, ?_, readEscape_pct2 cp e (by omega) c2⟩
      simp [pctEncode, utf8Octets, c1, c2, pctOctet]
    · by_cases c3 : cp < 65536
      · refine ⟨_, ?_, readEscape_pct3 cp e (by omega) c3 hs⟩
        simp [pctEncode, utf8Octets, c1, c2, c3, pctOctet]
      · refine ⟨_, ?_, readEscape_pct4 cp e (by omega) hlt⟩
        simp [pctEncode, utf8Octets, c1, c2, c3, pctOctet]

theorem pctEncode_length_pos (cp : Nat) : 0 < (pctEncode cp).length := by
  unfold pctEncode utf8Octets
  split_ifs <;> simp [pctOctet]

theorem encodeURIComponent_nil : encodeURIComponent [] = .ok [] := rfl

theorem encodeURIComponent_cons (c : CodeUnit) (rest : JSString) :
    encodeURIComponent (c :: rest) =
      if isUnescaped c then
        match encodeURIComponent rest with
        | .ok r => .ok (c :: r)
        | .error e => .error e
      else if isLowSurrogate c then .error .uriError
      else if isHighSurrogate c then
        match rest with
        | [] => .error .uriError
        | d :: rest2 =>
          if isLowSurrogate d then
            match encodeURIComponent rest2 with
            | .ok r => .ok (pctEncode (pairCodePoint c d) ++ r)
            | .error e => .error e
          else .error .uriError
      else
        match encodeURIComponent rest with
        | .ok r => .ok (pctEncode c.val ++ r)
        | .error e => .error e := by
  cases rest <;> rfl

theorem ne_percent_of_isUnescaped {c : CodeUnit} (h : isUnescaped c = true) : c ≠ unit 37 := by
  intro hc
  rw [hc] at h
  exact absurd h (by decide)

theorem isScalar_val {c : CodeUnit} (h1 : ¬ isLowSurrogate c = true)
    (h2 : ¬ isHighSurrogate c = true) : IsScalar c.val := by
  have := c.isLt
  simp only [isLowSurrogate, isHighSurrogate, Bool.and_eq_true, decide_eq_true_eq] at h1 h2
  constructor <;> omega

theorem isScalar_pair {c d : CodeUnit} (h1 : isHighSurrogate c = true)
    (h2 : isLowSurrogate d = true) : IsScalar (pairCodePoint c d) := by
  simp only [isLowSurrogate, isHighSurrogate, Bool.and_eq_true, decide_eq_true_eq] at h1 h2
  unfold pairCodePoint
  constructor <;> omega

theorem utf16Encode_val (c : CodeUnit) : utf16Encode c.val = [c] := by
  unfold utf16Encode
  rw [if_pos c.isLt, unit_val_self]

theorem utf16Encode_pair {c d : CodeUnit} (h1 : isHighSurrogate c = true)
    (h2 : isLowSurrogate d = true) : utf16Encode (pairCodePoint c d) = [c, d] := by
  simp only [isLowSurrogate, isHighSurrogate, Bool.and_eq_true, decide_eq_true_eq] at h1 h2
  have k1 : ¬ (pairCodePoint c d < 65536) := by unfold pairCodePoint; omega
  have k2 : 55296 + (pairCodePoint c d - 65536) / 1024 = c.val := by unfold pairCodePoint; omega
  have k3 : 56320 + (pairCodePoint c d - 65536) % 1024 = d.val := by unfold pairCodePoint; omega
  unfold utf16Encode
  rw [if_neg k1]
  show [unit (55296 + (pairCodePoint c d - 65536) / 1024),
    unit (56320 + (pairCodePoint c d - 65536) % 1024)] = [c, d]
  rw [k2, k3, unit_val_self, unit_val_self]

theorem decodeLoop_pctEncode (cp : Nat) (e : JSString) (fuel : Nat) (h : IsScalar cp) :
    decodeLoop (fuel + 1) (pctEncode cp ++ e) = prependOk (utf16Encode cp) (decodeLoop fuel e) := by
  obtain ⟨t, ht, hr⟩ := readEscape_pctEncode cp e h
  rw [ht, decodeLoop, if_pos rfl, hr]

/-- Decoding what `encodeURIComponent` produced gives the original string back,
with any number of loop rounds from the length of the encoded text up. -/
theorem decodeLoop_encodeURIComponent (s : JSString) :
    ∀ (e : JSString) (fuel : Nat), encodeURIComponent s = .ok e → e.length ≤ fuel →
      decodeLoop fuel e = .ok s := by
  induction s using encodeURIComponent.induct with
  | case1 =>
    intro e fuel h _
    rw [encodeURIComponent_nil] at h
    cases h
    cases fuel <;> rfl
  | case2 c rest hu r hr ih =>
    intro e fuel h hf
    rw [encodeURIComponent_cons, if_pos hu, hr] at h
    cases h
    cases fuel with
    | zero => simp at hf
    | succ f =>
      rw [decodeLoop, if_neg (ne_percent_of_isUnescaped hu),
        ih r f hr (by simpa using hf)]
      rfl
  | case3 c rest hu e' hr _ =>
    intro e fuel h _
    rw [encodeURIComponent_cons, if_pos hu, hr] at h
    cases h
  | case4 c rest hu hl =>
    intro e fuel h _
    rw [encodeURIComponent_cons, if_neg hu, if_pos hl] at h
    cases h
  | case5 c hu hl hh =>
    intro e fuel h _
    rw [encodeURIComponent_cons, if_neg hu, if_neg hl, if_pos hh] at h
    cases h
  | case6 c hu hl hh d rest2 hd r hr ih =>
    intro e fuel h hf
    rw [encodeURIComponent_cons, if_neg hu, if_neg hl, if_pos hh] at h
    dsimp only at h
    rw [if_pos hd, hr] at h
    have he := Except.ok.inj h
    subst he
    have hp := pctEncode_length_pos (pairCodePoint c d)
    rw [List.length_append] at hf
    cases fuel with
    | zero => omega
    | succ f =>
      rw [decodeLoop_pctEncode _ _ _ (isScalar_pair hh hd),
        ih r f hr (by omega), utf16Encode_pair hh hd]
      rfl
  | case7 c hu hl hh d rest2 hd e' hr _ =>
    intro e fuel h _
    rw [encodeURIComponent_cons, if_neg hu, if_neg hl, if_pos hh] at h
    dsimp only at h
    rw [if_pos hd, hr] at h
    cases h
  | case8 c hu hl hh d rest2 hd =>
    intro e fuel h _
    rw [encodeURIComponent_cons, if_neg hu, if_neg hl, if_pos hh] at h
    dsimp only at h
    rw [if_neg hd] at h
    cases h
  | case9 c rest hu hl hh r hr ih =>
    intro e fuel h hf
    rw [encodeURIComponent_cons, if_neg hu, if_neg hl, if_neg hh, hr] at h
    have he := Except.ok.inj h
    subst he
    have hp := pctEncode_length_pos c.val
    rw [List.length_append] at hf
    cases fuel with
    | zero => omega
    | succ f =>
      rw [decodeLoop_pctEncode _ _ _ (isScalar_val hl hh),
        ih r f hr (by omega), utf16Encode_val]
      rfl
  | case10 c rest hu hl hh e' hr _ =>
    intro e fuel h _
    rw [encodeURIComponent_cons, if_neg hu, if_neg hl, if_neg hh, hr] at h
    cases h

theorem isWellFormed_cons (c : CodeUnit) (rest : JSString) :
    isWellFormed (c :: rest) =
      if isLowSurrogate c then false
      else if isHighSurrogate c then
        match rest with
        | [] => false
        | d :: rest2 => isLowSurrogate d && isWellFormed rest2
      else isWellFormed rest := by
  cases rest <;> rfl

theorem not_surrogate_of_isUnescaped {c : CodeUnit} (h : isUnescaped c = true) :
    ¬ isLowSurrogate c = true ∧ ¬ isHighSurrogate c = true := by
  simp only [isUnescaped, isLowSurrogate, isHighSurrogate, Bool.and_eq_true, Bool.or_eq_true,
    decide_eq_true_eq] at h ⊢
  constructor <;> omega

/-- The encoding step succeeds exactly on the well-formed strings; on any other
string it throws `URIError`. -/
theorem encodeURIComponent_eq_error_iff (s : JSString) :
    (encodeURIComponent s = .error .uriError ↔ isWellFormed s = false) ∧
    ((∃ e, encodeURIComponent s = .ok e) ↔ isWellFormed s = true) := by
  induction s using encodeURIComponent.induct with
  | case1 => simp [encodeURIComponent_nil, isWellFormed]
  | case2 c rest hu r hr ih =>
    obtain ⟨hl, hh⟩ := not_surrogate_of_isUnescaped hu
    rw [encodeURIComponent_cons, if_pos hu, hr, isWellFormed_cons, if_neg hl, if_neg hh]
    rw [hr] at ih
    simpa using ih
  | case3 c rest hu e' hr ih =>
    obtain ⟨hl, hh⟩ := not_surrogate_of_isUnescaped hu
    rw [encodeURIComponent_cons, if_pos hu, hr, isWellFormed_cons, if_neg hl, if_neg hh]
    rw [hr] at ih
    simpa using ih
  | case4 c rest hu hl =>
    rw [encodeURIComponent_cons, if_neg hu, if_pos hl, isWellFormed_cons, if_pos hl]
    simp
  | case5 c hu hl hh =>
    rw [encodeURIComponent_cons, if_neg hu, if_neg hl, if_pos hh, isWellFormed_cons, if_neg hl,
      if_pos hh]
    simp
  | case6 c hu hl hh d rest2 hd r hr ih =>
    rw [encodeURIComponent_cons, if_neg hu, if_neg hl, if_pos hh, isWellFormed_cons, if_neg hl,
      if_pos hh]
    dsimp only
    rw [if_pos hd, hr, hd]
    rw [hr] at ih
    simpa using ih
  | case7 c hu hl hh d rest2 hd e' hr ih =>
    rw [encodeURIComponent_cons, if_neg hu, if_neg hl, if_pos hh, isWellFormed_cons, if_neg hl,
      if_pos hh]
    dsimp only
    rw [if_pos hd, hr, hd]
    rw [hr] at ih
    simpa using ih
  | case8 c hu hl hh d rest2 hd =>
    rw [encodeURIComponent_cons, if_neg hu, if_neg hl, if_pos hh, isWellFormed_cons, if_neg hl,
      if_pos hh]
    dsimp only
    rw [if_neg hd]
    simp [hd]
  | case9 c rest hu hl hh r hr ih =>
    rw [encodeURIComponent_cons, if_neg hu, if_neg hl, if_neg hh, hr, isWellFormed_cons,
      if_neg hl, if_neg hh]
    rw [hr] at ih
    simpa using ih
  | case10 c rest hu hl hh e' hr ih =>
    rw [encodeURIComponent_cons, if_neg hu, if_neg hl, if_neg hh, hr, isWellFormed_cons,
      if_neg hl, if_neg hh]
    rw [hr] at ih
    simpa using ih

theorem isUnescaped_hexDigit {d : Nat} (h : d < 16) : isUnescaped (hexDigit d) = true := by
  interval_cases d <;> rfl

theorem isUriChar_pctOctet {b : Nat} (h : b < 256) : ∀ u ∈ pctOctet b, isUriChar u = true := by
  intro u hu
  have h1 : b / 16 < 16 := by omega
  have h2 : b % 16 < 16 := by omega
  simp only [pctOctet, List.mem_cons, List.mem_singleton, List.not_mem_nil, or_false] at hu
  rcases hu with rfl | rfl | rfl
  · rfl
  · simp only [isUriChar, isUnescaped_hexDigit h1, Bool.true_or]
  · simp only [isUriChar, isUnescaped_hexDigit h2, Bool.true_or]

theorem utf8Octets_lt {cp : Nat} (h : cp < 1114112) : ∀ b ∈ utf8Octets cp, b < 256 := by
  intro b hb
  unfold utf8Octets at hb
  split_ifs at hb <;>
    simp only [List.mem_cons, List.mem_singleton, List.not_mem_nil, or_false] at hb <;>
    omega

theorem isUriChar_pctEncode {cp : Nat} (h : cp < 1114112) :
    ∀ u ∈ pctEncode cp, isUriChar u = true := by
  intro u hu
  simp only [pctEncode, List.mem_flatMap] at hu
  obtain ⟨b, hb, hu⟩ := hu
  exact isUriChar_pctOctet (utf8Octets_lt h b hb) u hu

/-- Every code unit written by `encodeURIComponent` is an unescaped character
or `%`. -/
theorem isUriChar_encodeURIComponent (s : JSString) :
    ∀ e, encodeURIComponent s = .ok e → ∀ u ∈ e, isUriChar u = true := by
  induction s using encodeURIComponent.induct with
  | case1 =>
    intro e h u hu
    rw [encodeURIComponent_nil] at h
    cases h
    cases hu
  | case2 c rest hu r hr ih =>
    intro e h u hmem
    rw [encodeURIComponent_cons, if_pos hu, hr] at h
    cases h
    rcases List.mem_cons.mp hmem with rfl | h2
    · simp only [isUriChar, hu, Bool.true_or]
    · exact ih r hr u h2
  | case3 c rest hu e' hr _ =>
    intro e h
    rw [encodeURIComponent_cons, if_pos hu, hr] at h
    cases h
  | case4 c rest hu hl =>
    intro e h
    rw [encodeURIComponent_cons, if_neg hu, if_pos hl] at h
    cases h
  | case5 c hu hl hh =>
    intro e h
    rw [encodeURIComponent_cons, if_neg hu, if_neg hl, if_pos hh] at h
    cases h
  | case6 c hu hl hh d rest2 hd r hr ih =>
    intro e h u hmem
    rw [encodeURIComponent_cons, if_neg hu, if_neg hl, if_pos hh] at h
    dsimp only at h
    rw [if_pos hd, hr] at h
    have he := Except.ok.inj h
    subst he
    rcases List.mem_append.mp hmem with h1 | h2
    · exact isUriChar_pctEncode (isScalar_pair hh hd).1 u h1
    · exact ih r hr u h2
  | case7 c hu hl hh d rest2 hd e' hr _ =>
    intro e h
    rw [encodeURIComponent_cons, if_neg hu, if_neg hl, if_pos hh] at h
    dsimp only at h
    rw [if_pos hd, hr] at h
    cases h
  | case8 c hu hl hh d rest2 hd =>
    intro e h
    rw [encodeURIComponent_cons, if_neg hu, if_neg hl, if_pos hh] at h
    dsimp only at h
    rw [if_neg hd] at h
    cases h
  | case9 c rest hu hl hh r hr ih =>
    intro e h u hmem
    rw [encodeURIComponent_cons, if_neg hu, if_neg hl, if_neg hh, hr] at h
    have he := Except.ok.inj h
    subst he
    rcases List.mem_append.mp hmem with h1 | h2
    · exact isUriChar_pctEncode (isScalar_val hl hh).1 u h1
    · exact ih r hr u h2
  | case10 c rest hu hl hh e' hr _ =>
    intro e h
    rw [encodeURIComponent_cons, if_neg hu, if_neg hl, if_neg hh, hr] at h
    cases h

/-! ## Facts about `processHoverContent` -/

theorem dropWhile_append_stop {α : Type} (p : α → Bool) (l : List α) (a : α) (t : List α)
    (hl : ∀ x ∈ l, p x = true) (ha : p a = false) :
    (l ++ a :: t).dropWhile p = a :: t := by
  induction l with
  | nil => simp [List.dropWhile, ha]
  | cons x xs ih =>
    have hx : p x = true := hl x (List.mem_cons_self _ _)
    simp only [List.cons_append, List.dropWhile, hx]
    exact ih (fun y hy => hl y (List.mem_cons_of_mem _ hy))

theorem pOpen_eq : pOpen = [unit 60, unit 112, unit 62] := by decide

theorem pClose_eq : pClose = [unit 60, unit 47, unit 112, unit 62] := by decide

/-- The anchored replacement returns the group: the text between the first
`<p>` and the last `</p>` of a string that is, up to surrounding white space,
`<p>X</p>`. -/
theorem stripOuterParagraph_wrapped (ws1 x ws2 : JSString)
    (h1 : ∀ u ∈ ws1, isWhiteSpace u = true) (h2 : ∀ u ∈ ws2, isWhiteSpace u = true) :
    stripOuterParagraph (ws1 ++ pOpen ++ x ++ pClose ++ ws2) = x := by
  have ha : (ws1 ++ pOpen ++ x ++ pClose ++ ws2).dropWhile isWhiteSpace
      = unit 60 :: (unit 112 :: unit 62 :: (x ++ pClose ++ ws2)) := by
    have : ws1 ++ pOpen ++ x ++ pClose ++ ws2
        = ws1 ++ unit 60 :: (unit 112 :: unit 62 :: (x ++ pClose ++ ws2)) := by
      simp [pOpen_eq]
    rw [this]
    exact dropWhile_append_stop _ _ _ _ h1 (by decide)
  have hb : ((x ++ pClose ++ ws2).reverse).dropWhile isWhiteSpace
      = unit 62 :: (unit 112 :: unit 47 :: unit 60 :: x.reverse) := by
    have : (x ++ pClose ++ ws2).reverse
        = ws2.reverse ++ unit 62 :: (unit 112 :: unit 47 :: unit 60 :: x.reverse) := by
      simp [pClose_eq]
    rw [this]
    exact dropWhile_append_stop _ _ _ _
      (fun u hu => h2 u (List.mem_reverse.mp hu)) (by decide)
  unfold stripOuterParagraph
  simp only [ha]
  have hp : pOpen.isPrefixOf (unit 60 :: (unit 112 :: unit 62 :: (x ++ pClose ++ ws2))) = true := by
    simp [pOpen_eq]
  rw [if_pos hp]
  simp only [List.drop_succ_cons, List.drop_zero, hb]
  have hq : pClose.reverse.isPrefixOf (unit 62 :: (unit 112 :: unit 47 :: unit 60 :: x.reverse))
      = true := by
    simp [pClose_eq]
  rw [if_pos hq]
  simp

theorem afterFirst_length (pat : JSString) (s r : JSString) (h : afterFirst pat s = some r) :
    r.length + pat.length ≤ s.length := by
  induction s with
  | nil => simp [afterFirst] at h
  | cons c rest ih =>
    unfold afterFirst at h
    split at h
    · rename_i hp
      have hle : pat.length ≤ (c :: rest).length :=
        (List.isPrefixOf_iff_prefix.mp hp).length_le
      have := Option.some.inj h
      rw [← this, List.length_drop]
      omega
    · have := ih h
      simp only [List.length_cons]
      omega

/-- The count of matches does not depend on the bound once it reaches the
length of the string. -/
theorem paragraphMatches_fuel (fuel : Nat) :
    ∀ (s : JSString) (fuel2 : Nat), s.length ≤ fuel → s.length ≤ fuel2 →
      paragraphMatches fuel s = paragraphMatches fuel2 s := by
  induction fuel with
  | zero =>
    intro s fuel2 h1 _
    have hs : s = [] := List.length_eq_zero.mp (by omega)
    subst hs
    cases fuel2 <;> simp [paragraphMatches, afterFirst]
  | succ f ih =>
    intro s fuel2 h1 h2
    cases fuel2 with
    | zero =>
      have hs : s = [] := List.length_eq_zero.mp (by omega)
      subst hs
      simp [paragraphMatches, afterFirst]
    | succ f2 =>
      cases ha : afterFirst pOpen s with
      | none => simp only [paragraphMatches, ha]
      | some r =>
        cases hb : afterFirst pClose r with
        | none => simp only [paragraphMatches, ha, hb]
        | some r2 =>
          have l1 := afterFirst_length _ _ _ ha
          have l2 := afterFirst_length _ _ _ hb
          have l3 : pOpen.length = 3 := by decide
          simp only [paragraphMatches, ha, hb]
          rw [ih r2 f2 (by omega) (by omega)]

theorem not_isWhiteSpace_lt : isWhiteSpace (unit 60) = false := by decide

theorem afterFirst_pOpen_whiteSpace (ws t : JSString) (h : ∀ u ∈ ws, isWhiteSpace u = true) :
    afterFirst pOpen (ws ++ pOpen ++ t) = some t := by
  induction ws with
  | nil =>
    have : [] ++ pOpen ++ t = unit 60 :: (unit 112 :: unit 62 :: t) := by simp [pOpen_eq]
    rw [this, afterFirst]
    simp [pOpen_eq]
  | cons u us ih =>
    have hu : isWhiteSpace u = true := h u (List.mem_cons_self _ _)
    have hne : u ≠ unit 60 := by
      intro hc
      rw [hc] at hu
      exact absurd hu (by decide)
    have hcons : u :: us ++ pOpen ++ t = u :: (us ++ pOpen ++ t) := by simp
    rw [hcons, afterFirst]
    have hp : pOpen.isPrefixOf (u :: (us ++ pOpen ++ t)) = false := by
      simp [pOpen_eq, List.isPrefixOf, Ne.symm hne]
    rw [hp]
    exact ih (fun v hv => h v (List.mem_cons_of_mem _ hv))

theorem afterFirst_pOpen_none (ws : JSString) (h : ∀ u ∈ ws, isWhiteSpace u = true) :
    afterFirst pOpen ws = none := by
  induction ws with
  | nil => rfl
  | cons u us ih =>
    have hu : isWhiteSpace u = true := h u (List.mem_cons_self _ _)
    have hne : u ≠ unit 60 := by
      intro hc
      rw [hc] at hu
      exact absurd hu (by decide)
    rw [afterFirst]
    have hp : pOpen.isPrefixOf (u :: us) = false := by
      simp [pOpen_eq, List.isPrefixOf, Ne.symm hne]
    rw [hp]
    exact ih (fun v hv => h v (List.mem_cons_of_mem _ hv))

theorem isPrefixOf_pClose_append (a : CodeUnit) (x t : JSString)
    (h : pClose.isPrefixOf (a :: x) = false) :
    pClose.isPrefixOf (a :: x ++ pClose ++ t) = false := by
  rw [pClose_eq] at h ⊢
  rcases x with _ | ⟨b, _ | ⟨c, _ | ⟨d, x⟩⟩⟩
  · by_cases ha : unit 60 = a
    · subst ha
      rfl
    · simp [List.isPrefixOf, ha]
  · by_cases ha : unit 60 = a
    · by_cases hb : unit 47 = b
      · subst ha hb
        rfl
      · simp [List.isPrefixOf, hb]
    · simp [List.isPrefixOf, ha]
  · by_cases ha : unit 60 = a
    · by_cases hb : unit 47 = b
      · by_cases hc : unit 112 = c
        · subst ha hb hc
          rfl
        · simp [List.isPrefixOf, hc]
      · simp [List.isPrefixOf, hb]
    · simp [List.isPrefixOf, ha]
  · simpa [List.isPrefixOf] using h

theorem afterFirst_pClose_append (x t : JSString) (h : afterFirst pClose x = none) :
    afterFirst pClose (x ++ pClose ++ t) = some t := by
  induction x with
  | nil =>
    have : [] ++ pClose ++ t = unit 60 :: (unit 47 :: unit 112 :: unit 62 :: t) := by
      simp [pClose_eq]
    rw [this, afterFirst]
    simp [pClose_eq]
  | cons a x ih =>
    rw [afterFirst] at h
    have hp : pClose.isPrefixOf (a :: x) = false := by
      cases hq : pClose.isPrefixOf (a :: x) with
      | false => rfl
      | true => simp [hq] at h
    rw [hp] at h
    have h2 : afterFirst pClose x = none := by simpa using h
    have hcons : a :: x ++ pClose ++ t = a :: (x ++ pClose ++ t) := by simp
    have hq := isPrefixOf_pClose_append a x t hp
    rw [hcons] at hq ⊢
    rw [afterFirst, hq]
    exact ih h2

theorem paragraphMatches_whiteSpace (fuel : Nat) (ws : JSString)
    (h : ∀ u ∈ ws, isWhiteSpace u = true) : paragraphMatches fuel ws = 0 := by
  cases fuel with
  | zero => rfl
  | succ f => simp only [paragraphMatches, afterFirst_pOpen_none ws h]

/-- A rendering that is one paragraph `<p>X</p>` between white space, `X`
holding no `</p>`, has exactly one match of `/<p>.*?<\/p>/gs`. -/
theorem paragraphCount_single (ws1 x ws2 : JSString)
    (h1 : ∀ u ∈ ws1, isWhiteSpace u = true) (h2 : ∀ u ∈ ws2, isWhiteSpace u = true)
    (hx : afterFirst pClose x = none) :
    paragraphCount (ws1 ++ pOpen ++ x ++ pClose ++ ws2) = 1 := by
  have hlen : (ws1 ++ pOpen ++ x ++ pClose ++ ws2).length
      = (ws1.length + x.length + ws2.length + 6) + 1 := by
    simp [pOpen_eq, pClose_eq]
    omega
  have hassoc : ws1 ++ pOpen ++ x ++ pClose ++ ws2 = ws1 ++ pOpen ++ (x ++ pClose ++ ws2) := by
    simp [List.append_assoc]
  unfold paragraphCount
  rw [hlen, hassoc, paragraphMatches]
  simp only [afterFirst_pOpen_whiteSpace ws1 _ h1,
    afterFirst_pClose_append x ws2 hx, paragraphMatches_whiteSpace _ ws2 h2]

/-- What `afterFirst` returns is what follows an occurrence of the pattern. -/
theorem afterFirst_some_decomp (pat : JSString) (s t : JSString)
    (h : afterFirst pat s = some t) : ∃ u, s = u ++ pat ++ t := by
  induction s with
  | nil => simp [afterFirst] at h
  | cons c rest ih =>
    unfold afterFirst at h
    split at h
    · rename_i hp
      obtain ⟨w, hw⟩ := List.isPrefixOf_iff_prefix.mp hp
      have ht := Option.some.inj h
      refine ⟨[], ?_⟩
      rw [← ht, ← hw]
      simp
    · obtain ⟨u, hu⟩ := ih h
      refine ⟨c :: u, ?_⟩
      rw [hu]
      simp

/-- A string that holds the pattern has a first occurrence, and the text after
it ends with everything after the given occurrence. -/
theorem afterFirst_append (pat : JSString) (hpat : pat ≠ []) (u t : JSString) :
    ∃ v, afterFirst pat (u ++ pat ++ t) = some (v ++ t) := by
  induction u with
  | nil =>
    obtain ⟨p, ps, hp⟩ := List.exists_cons_of_ne_nil hpat
    refine ⟨[], ?_⟩
    have hcons : [] ++ pat ++ t = p :: (ps ++ t) := by simp [hp]
    have hpre : pat.isPrefixOf (p :: (ps ++ t)) = true := by
      rw [List.isPrefixOf_iff_prefix]
      exact ⟨t, by simp [hp]⟩
    rw [hcons, afterFirst, if_pos hpre]
    have : p :: (ps ++ t) = pat ++ t := by simp [hp]
    rw [this, List.drop_left]
    rfl
  | cons x u ih =>
    have hcons : x :: u ++ pat ++ t = x :: (u ++ pat ++ t) := by simp
    rw [hcons, afterFirst]
    by_cases hpre : pat.isPrefixOf (x :: (u ++ pat ++ t)) = true
    · rw [if_pos hpre]
      refine ⟨(x :: (u ++ pat)).drop pat.length, ?_⟩
      have hle : pat.length ≤ (x :: (u ++ pat)).length := by
        simp only [List.length_cons, List.length_append]
        omega
      have hsplit : x :: (u ++ pat ++ t) = (x :: (u ++ pat)) ++ t := by simp
      rw [hsplit, List.drop_append_of_le_length hle]
    · rw [if_neg hpre]
      exact ih

theorem pOpen_ne_nil : pOpen ≠ [] := by decide

theorem pClose_ne_nil : pClose ≠ [] := by decide

/-- One round of the match loop on a string that holds a paragraph. -/
theorem paragraphMatches_succ (fuel : Nat) (a b e : JSString) :
    ∃ v, paragraphMatches (fuel + 1) (a ++ pOpen ++ b ++ pClose ++ e)
      = paragraphMatches fuel (v ++ e) + 1 := by
  obtain ⟨v1, h1⟩ := afterFirst_append pOpen pOpen_ne_nil a (b ++ pClose ++ e)
  obtain ⟨v2, h2⟩ := afterFirst_append pClose pClose_ne_nil (v1 ++ b) e
  have e1 : a ++ pOpen ++ b ++ pClose ++ e = a ++ pOpen ++ (b ++ pClose ++ e) := by
    simp [List.append_assoc]
  have e2 : v1 ++ (b ++ pClose ++ e) = v1 ++ b ++ pClose ++ e := by
    simp [List.append_assoc]
  refine ⟨v2, ?_⟩
  rw [e1, paragraphMatches]
  simp only [h1, e2, h2]

/-- A rendering with two paragraphs has at least two matches. -/
theorem paragraphCount_of_hasTwoParagraphs (r : JSString) (h : HasTwoParagraphs r) :
    2 ≤ paragraphCount r := by
  obtain ⟨a, b, c, d, e, hr⟩ := h
  have hr2 : r = a ++ pOpen ++ b ++ pClose ++ (c ++ pOpen ++ d ++ pClose ++ e) := by
    rw [hr]
    simp [pOpen, pClose, List.append_assoc]
  have hlen : ∃ fuel, r.length = fuel + 2 := by
    refine ⟨a.length + b.length + c.length + d.length + e.length + 12, ?_⟩
    rw [hr2]
    simp [pOpen_eq, pClose_eq]
    omega
  obtain ⟨fuel, hf⟩ := hlen
  unfold paragraphCount
  rw [hf]
  obtain ⟨v, hv⟩ := paragraphMatches_succ (fuel + 1) a b (c ++ pOpen ++ d ++ pClose ++ e)
  obtain ⟨v2, hv2⟩ := paragraphMatches_succ fuel (v ++ c) d e
  have e3 : v ++ (c ++ pOpen ++ d ++ pClose ++ e) = v ++ c ++ pOpen ++ d ++ pClose ++ e := by
    simp [List.append_assoc]
  rw [hr2, hv, e3, hv2]
  omega

/-- Two matches come from two paragraphs. -/
theorem hasTwoParagraphs_of_paragraphMatches (fuel : Nat) (r : JSString)
    (h : 2 ≤ paragraphMatches fuel r) : HasTwoParagraphs r := by
  cases fuel with
  | zero => simp [paragraphMatches] at h
  | succ f =>
    rw [paragraphMatches] at h
    cases h1 : afterFirst pOpen r with
    | none => simp [h1] at h
    | some t1 =>
      cases h2 : afterFirst pClose t1 with
      | none => simp [h1, h2] at h
      | some t2 =>
        simp only [h1, h2] at h
        cases f with
        | zero => simp [paragraphMatches] at h
        | succ f2 =>
          rw [paragraphMatches] at h
          cases h3 : afterFirst pOpen t2 with
          | none => simp [h3] at h
          | some t3 =>
            cases h4 : afterFirst pClose t3 with
            | none => simp [h3, h4] at h
            | some t4 =>
              obtain ⟨u1, k1⟩ := afterFirst_some_decomp _ _ _ h1
              obtain ⟨u2, k2⟩ := afterFirst_some_decomp _ _ _ h2
              obtain ⟨u3, k3⟩ := afterFirst_some_decomp _ _ _ h3
              obtain ⟨u4, k4⟩ := afterFirst_some_decomp _ _ _ h4
              refine ⟨u1, u2, u3, u4, t4, ?_⟩
              rw [k1, k2, k3, k4]
              simp [pOpen, pClose, List.append_assoc]

/-- A rendering `<p>X</p>` between white space that does not hold two
paragraphs has exactly one match. -/
theorem paragraphCount_of_single (a x e : JSString)
    (h : ¬ HasTwoParagraphs (a ++ pOpen ++ x ++ pClose ++ e)) :
    paragraphCount (a ++ pOpen ++ x ++ pClose ++ e) = 1 := by
  have hlen : (a ++ pOpen ++ x ++ pClose ++ e).length
      = (a.length + x.length + e.length + 6) + 1 := by
    simp [pOpen_eq, pClose_eq]
    omega
  have hge : 1 ≤ paragraphCount (a ++ pOpen ++ x ++ pClose ++ e) := by
    unfold paragraphCount
    rw [hlen]
    obtain ⟨v, hv⟩ := paragraphMatches_succ (a.length + x.length + e.length + 6) a x e
    rw [hv]
    omega
  have hlt : ¬ 2 ≤ paragraphCount (a ++ pOpen ++ x ++ pClose ++ e) :=
    fun h2 => h (hasTwoParagraphs_of_paragraphMatches _ _ h2)
  omega

theorem afterFirst_pClose_none_of_not_mem (x : JSString)
    (h : ¬ ∃ u v : JSString, x = u ++ lit "</p>" ++ v) : afterFirst pClose x = none := by
  cases hx : afterFirst pClose x with
  | none => rfl
  | some t =>
    obtain ⟨u, hu⟩ := afterFirst_some_decomp _ _ _ hx
    exact absurd ⟨u, t, hu⟩ h

theorem trim_nil : trim [] = [] := rfl

theorem processHoverContent_of_nonblank (hexo : Ctx) (c : JSString) (h : trim c ≠ []) :
    processHoverContentTraced hexo (some c)
      = (if paragraphCount (hexo.renderSync c (lit "markdown")) = 1
          then (stripOuterParagraph (hexo.renderSync c (lit "markdown")), [c])
          else (hexo.renderSync c (lit "markdown"), [c])) := by
  have hc : c ≠ [] := by
    intro hc
    rw [hc] at h
    exact h trim_nil
  have hor : ¬ (c = [] ∨ trim c = []) := by
    rintro (h1 | h1)
    · exact hc h1
    · exact h h1
  simp only [processHoverContentTraced, if_neg hor]

/-- C8: for every non-blank content whose rendering `r` is a single paragraph
`<p>X</p>`, optionally surrounded by white space, the result is `X` (single:
`r` does not hold two paragraphs; in particular whenever `X` holds no `</p>`);
for every non-blank content whose rendering holds two or more `<p>...</p>`
paragraphs the result is `r` unchanged; for missing, empty or white-space-only
content the result is the empty string and nothing is passed to the renderer. -/
theorem processHoverContent_paragraphs (hexo : Ctx) :
    (∀ c ws1 x ws2 : JSString, trim c ≠ [] →
      (∀ u ∈ ws1, isWhiteSpace u = true) → (∀ u ∈ ws2, isWhiteSpace u = true) →
      hexo.renderSync c (lit "markdown") = ws1 ++ lit "<p>" ++ x ++ lit "</p>" ++ ws2 →
      ¬ HasTwoParagraphs (hexo.renderSync c (lit "markdown")) →
      processHoverContent hexo (some c) = x) ∧
    (∀ c ws1 x ws2 : JSString, trim c ≠ [] →
      (∀ u ∈ ws1, isWhiteSpace u = true) → (∀ u ∈ ws2, isWhiteSpace u = true) →
      hexo.renderSync c (lit "markdown") = ws1 ++ lit "<p>" ++ x ++ lit "</p>" ++ ws2 →
      (¬ ∃ u v : JSString, x = u ++ lit "</p>" ++ v) →
      processHoverContent hexo (some c) = x) ∧
    (∀ c : JSString, trim c ≠ [] →
      HasTwoParagraphs (hexo.renderSync c (lit "markdown")) →
      processHoverContent hexo (some c) = hexo.renderSync c (lit "markdown")) ∧
    (∀ content : Option JSString,
      (content = none ∨ content = some [] ∨ ∃ c, content = some c ∧ trim c = []) →
      processHoverContent hexo content = lit "" ∧
      (processHoverContentTraced hexo content).2 = []) := by
  refine ⟨?_, ?_, ?_, ?_⟩
  · intro c ws1 x ws2 hc h1 h2 hr hsingle
    have hr2 : hexo.renderSync c (lit "markdown") = ws1 ++ pOpen ++ x ++ pClose ++ ws2 := hr
    have hone : paragraphCount (hexo.renderSync c (lit "markdown")) = 1 := by
      rw [hr2] at hsingle ⊢
      exact paragraphCount_of_single ws1 x ws2 hsingle
    unfold processHoverContent
    rw [processHoverContent_of_nonblank hexo c hc, if_pos hone, hr2]
    exact stripOuterParagraph_wrapped ws1 x ws2 h1 h2
  · intro c ws1 x ws2 hc h1 h2 hr hx
    have hr2 : hexo.renderSync c (lit "markdown") = ws1 ++ pOpen ++ x ++ pClose ++ ws2 := hr
    have hone : paragraphCount (hexo.renderSync c (lit "markdown")) = 1 := by
      rw [hr2]
      exact paragraphCount_single ws1 x ws2 h1 h2 (afterFirst_pClose_none_of_not_mem x hx)
    unfold processHoverContent
    rw [processHoverContent_of_nonblank hexo c hc, if_pos hone, hr2]
    exact stripOuterParagraph_wrapped ws1 x ws2 h1 h2
  · intro c hc htwo
    have hcount := paragraphCount_of_hasTwoParagraphs _ htwo
    have hne : ¬ paragraphCount (hexo.renderSync c (lit "markdown")) = 1 := by omega
    unfold processHoverContent
    rw [processHoverContent_of_nonblank hexo c hc, if_neg hne]
  · intro content h
    have : processHoverContentTraced hexo content = ([], []) := by
      rcases h with rfl | rfl | ⟨c, rfl, hc⟩
      · rfl
      · rfl
      · simp only [processHoverContentTraced, hc, or_true, if_true]
    unfold processHoverContent
    rw [this]
    exact ⟨rfl, rfl⟩

theorem takeWhile_append_stop {α : Type} (p : α → Bool) (l : List α) (a : α) (t : List α)
    (hl : ∀ x ∈ l, p x = true) (ha : p a = false) :
    (l ++ a :: t).takeWhile p = l := by
  induction l with
  | nil => simp [List.takeWhile, ha]
  | cons x xs ih =>
    have hx : p x = true := hl x (List.mem_cons_self _ _)
    have h2 := ih (fun y hy => hl y (List.mem_cons_of_mem _ hy))
    simp only [List.cons_append, List.takeWhile, hx]
    exact congrArg (List.cons x) h2

theorem isUriChar_val {u : CodeUnit} (h : isUriChar u = true) :
    (65 ≤ u.val ∧ u.val ≤ 90) ∨ (97 ≤ u.val ∧ u.val ≤ 122) ∨ (48 ≤ u.val ∧ u.val ≤ 57) ∨
      u.val = 45 ∨ u.val = 95 ∨ u.val = 46 ∨ u.val = 33 ∨ u.val = 126 ∨ u.val = 42 ∨
      u.val = 39 ∨ u.val = 40 ∨ u.val = 41 ∨ u.val = 37 := by
  simp only [isUriChar, isUnescaped, Bool.or_eq_true, Bool.and_eq_true, decide_eq_true_eq] at h
  rcases h with h | h
  · omega
  · right; right; right; right; right; right; right; right; right; right; right; right
    rw [h]
    rfl

theorem ne_of_val_ne {u : CodeUnit} {n : Nat} (hn : n < 65536) (h : u.val ≠ n) : u ≠ unit n := by
  intro hu
  apply h
  rw [hu, unit_val hn]

theorem isUriChar_safe {u : CodeUnit} (h : isUriChar u = true) :
    u ≠ unit 34 ∧ u ≠ unit 60 ∧ u ≠ unit 62 ∧ u ≠ unit 38 ∧ isWhiteSpace u = false := by
  have hv := isUriChar_val h
  refine ⟨ne_of_val_ne (by omega) (by omega), ne_of_val_ne (by omega) (by omega),
    ne_of_val_ne (by omega) (by omega), ne_of_val_ne (by omega) (by omega), ?_⟩
  rw [Bool.eq_false_iff]
  intro hw
  simp only [isWhiteSpace, Bool.or_eq_true, Bool.and_eq_true, decide_eq_true_eq] at hw
  omega

/-! ## Facts about the `hoverContent` object -/

theorem lookup_filter_ne (st : Store) (m n : JSString) (h : m ≠ n) :
    (st.filter (fun p => decide (p.1 ≠ m))).lookup n = st.lookup n := by
  induction st with
  | nil => rfl
  | cons p ps ih =>
    obtain ⟨k, v⟩ := p
    by_cases hk : k = m
    · subst hk
      have hnk : (n == k) = false := by simpa using Ne.symm h
      simp only [List.filter, ne_eq, not_true_eq_false, decide_False, List.lookup, hnk]
      simpa using ih
    · by_cases hnk : n = k
      · subst hnk
        simp [List.filter, hk, List.lookup]
      · have hb : (n == k) = false := by simpa using hnk
        simp only [List.filter, ne_eq, hk, not_false_eq_true, decide_True, List.lookup, hb]
        simpa using ih

theorem Store.get_set_self (st : Store) (n v : JSString) (hn : n ≠ lit "__proto__") :
    (st.set n v).get n = .str v := by
  unfold Store.set
  cases h : st.lookup n with
  | some w => simp [Store.get, List.lookup]
  | none => simp [Store.get, List.lookup, hn]

theorem Store.get_set_other (st : Store) (m n v : JSString) (h : m ≠ n) :
    (st.set m v).get n = st.get n := by
  have hb : (n == m) = false := by simpa using Ne.symm h
  unfold Store.set
  cases hl : st.lookup m with
  | some w =>
    have := lookup_filter_ne st m n h
    simp only [Store.get, List.lookup, hb, this]
  | none =>
    by_cases hp : m = lit "__proto__"
    · simp only [hp, if_true]
    · simp only [hp, if_false, Store.get, List.lookup, hb]

theorem sethover_get_other (ctx : Ctx) (args : List JSString) (content : Option JSString)
    (st : Store) (n : JSString)
    (h : ctx.argsMap args [lit "name"] none (lit "name") ≠ some n) :
    (sethover ctx args content st).2.get n = st.get n := by
  unfold sethover
  cases hname : ctx.argsMap args [lit "name"] none (lit "name") with
  | none => simp [truthyStr]
  | some m =>
    have hmn : m ≠ n := by
      intro hc
      apply h
      rw [hname, hc]
    by_cases ht : truthyStr (some m) = true
    · simp only [ht, if_true, toStr]
      exact Store.get_set_other st m n _ hmn
    · simp only [ht, if_false, Bool.false_eq_true]

theorem runSethovers_get_other (ctx : Ctx) (calls : List SethoverCall) (n : JSString)
    (h : ∀ call ∈ calls, ctx.argsMap call.1 [lit "name"] none (lit "name") ≠ some n) :
    ∀ st : Store, (runSethovers ctx calls st).get n = st.get n := by
  induction calls with
  | nil =>
    intro st
    rfl
  | cons call rest ih =>
    intro st
    have h1 := h call (List.mem_cons_self _ _)
    have h2 := ih (fun c hc => h c (List.mem_cons_of_mem _ hc))
    simp only [runSethovers, List.foldl_cons] at h2 ⊢
    rw [h2, sethover_get_other ctx call.1 call.2 st n h1]

/-- A snippet stored under a non-empty name other than `__proto__` is what
`hover` reads afterwards: with `n` the name of the last `sethover` for it, `c`
its content, and `E` the encoding of the processed content, `hover` returns
the span carrying `E`. -/
theorem hover_after_sethovers (ctx : Ctx) (random36 : JSString)
    (pre post : List SethoverCall) (a : List JSString) (c : Option JSString) (st0 : Store)
    (n : JSString) (args : List JSString) (content : Option JSString) (E : JSString)
    (hn : n ≠ []) (hproto : n ≠ lit "__proto__")
    (ha : ctx.argsMap a [lit "name"] none (lit "name") = some n)
    (hpost : ∀ call ∈ post, ctx.argsMap call.1 [lit "name"] none (lit "name") ≠ some n)
    (hne : processHoverContent ctx c ≠ [])
    (hargs : ctx.argsMap args [lit "name"] none (lit "name") = some n)
    (hE : encodeURIComponent (processHoverContent ctx c) = .ok E) :
    hover ctx random36 args content (runSethovers ctx (pre ++ (a, c) :: post) st0)
      = (.ok (lit "<span id=\"" ++ generateUniqueId random36 ++
          lit "\" class=\"floating-hover-target\" data-hover-content=\"" ++ E ++
          lit "\">" ++ processHoverContent ctx content ++ lit "</span>"),
        runSethovers ctx (pre ++ (a, c) :: post) st0) := by
  have hget : (runSethovers ctx (pre ++ (a, c) :: post) st0).get n
      = .str (processHoverContent ctx c) := by
    have hsplit : runSethovers ctx (pre ++ (a, c) :: post) st0
        = runSethovers ctx post (sethover ctx a c (runSethovers ctx pre st0)).2 := by
      simp [runSethovers, List.foldl_append]
    rw [hsplit, runSethovers_get_other ctx post n hpost]
    have ht : truthyStr (some n) = true := by simp [truthyStr, hn]
    unfold sethover
    simp only [ha, ht, if_true, toStr]
    exact Store.get_set_self _ n _ hproto
  have ht : truthyStr (some n) = true := by simp [truthyStr, hn]
  unfold hover
  simp only [hargs, ht, toStr, hget, JSValue.truthy, JSValue.toJSString, hne, ne_eq,
    not_false_eq_true, decide_True, Bool.not_true, Bool.or_self, Bool.false_eq_true,
    if_false, hE, hoverSpan]

/-- A concrete run of `hover_after_sethovers`: `tip` is stored, another snippet
follows, and `hover name:tip` carries the encoding of the stored text. -/
theorem hover_after_sethovers_run :
    hover sampleCtx (lit "0.4fzyo82mvyr") [lit "name:tip"] (some (lit "word"))
        (runSethovers sampleCtx
          ([] ++ ([lit "name:tip"], some (lit "a b")) :: [([lit "name:other"], some (lit "x"))])
          emptyStore)
      = (.ok (lit "<span id=\"" ++ generateUniqueId (lit "0.4fzyo82mvyr") ++
          lit "\" class=\"floating-hover-target\" data-hover-content=\"" ++ lit "a%20b" ++
          lit "\">" ++ processHoverContent sampleCtx (some (lit "word")) ++ lit "</span>"),
        runSethovers sampleCtx
          ([] ++ ([lit "name:tip"], some (lit "a b")) :: [([lit "name:other"], some (lit "x"))])
          emptyStore) :=
  hover_after_sethovers sampleCtx (lit "0.4fzyo82mvyr") [] [([lit "name:other"], some (lit "x"))]
    [lit "name:tip"] (some (lit "a b")) emptyStore (lit "tip") [lit "name:tip"]
    (some (lit "word")) (lit "a%20b") (by decide) (by decide) (by decide)
    (by
      intro call hc
      rw [List.mem_singleton.mp hc]
      decide)
    (by decide) (by decide) (by decide)

/-- With no own property and nothing inherited under the name, and also with no
name, `hover` returns its inline error. -/
theorem hover_error_of_absent (ctx : Ctx) (random36 : JSString) (args : List JSString)
    (content : Option JSString) (st : Store)
    (h : ctx.argsMap args [lit "name"] none (lit "name") = none ∨
      ∃ n, ctx.argsMap args [lit "name"] none (lit "name") = some n ∧
        (n = [] ∨ (st.lookup n = none ∨ st.lookup n = some []) ∧
          objectPrototypeGet n = .undefined)) :
    hover ctx random36 args content st
      = (.ok (lit "<span style=\"color:red\">Error: No hover content found for name '" ++
          toStr (ctx.argsMap args [lit "name"] none (lit "name")) ++ lit "'.</span>"), st) := by
  unfold hover
  rcases h with h | ⟨n, h, hn⟩
  · simp [h, truthyStr, noHoverContentError]
  · rcases hn with hn | ⟨hown, hp⟩
    · simp [h, hn, truthyStr, noHoverContentError]
    · rcases hown with hown | hown
      · simp [h, toStr, Store.get, hown, hp, JSValue.truthy, noHoverContentError]
      · simp [h, toStr, Store.get, hown, JSValue.truthy, noHoverContentError]

/-! ## The claims -/

/-- C5, at a string the claim covers: `encodeURIComponent` throws `URIError` on
the one-unit string holding the unpaired surrogate U+D800, so there is no
encoded value to decode. -/
theorem encodeURIComponent_unpaired_surrogate :
    encodeURIComponent [unit 0xD800] = .error .uriError ∧
    ¬ ∃ e, encodeURIComponent [unit 0xD800] = .ok e ∧
      decodeURIComponent e = .ok [unit 0xD800] := by
  refine ⟨by decide, ?_⟩
  rintro ⟨e, h, _⟩
  have h2 : encodeURIComponent [unit 0xD800] = .error .uriError := by decide
  rw [h2] at h
  cases h

/-- C5 (amended): for every well-formed string `s` (no unpaired surrogate) the
encoding step succeeds and `decodeURIComponent(encodeURIComponent(s)) = s`. -/
theorem decodeURIComponent_encodeURIComponent (s : JSString) (h : isWellFormed s = true) :
    ∃ e, encodeURIComponent s = .ok e ∧ decodeURIComponent e = .ok s := by
  obtain ⟨e, he⟩ := ((encodeURIComponent_eq_error_iff s).2).mpr h
  exact ⟨e, he, decodeLoop_encodeURIComponent s e e.length he (Nat.le_refl _)⟩

/-- Witness for C5 (amended): markup with a non-ASCII letter and a surrogate pair. -/
theorem decodeURIComponent_encodeURIComponent_witness :
    isWellFormed (lit "<b>a b</b>" ++ [unit 233, unit 0xD83D, unit 0xDE00]) = true ∧
    ∃ e, encodeURIComponent (lit "<b>a b</b>" ++ [unit 233, unit 0xD83D, unit 0xDE00]) = .ok e ∧
      decodeURIComponent e = .ok (lit "<b>a b</b>" ++ [unit 233, unit 0xD83D, unit 0xDE00]) :=
  ⟨by decide, decodeURIComponent_encodeURIComponent _ (by decide)⟩

/-- C9: for every tooltip string `s`, the value `e = encodeURIComponent(s)` that
`hover` and `explain` write into `data-hover-content` consists of unescaped
characters (ASCII letters, digits, `- _ . ! ~ * ' ( )`) and `%` only; so it holds
no double quote, `<`, `>`, `&` or white space, and in the span the text from the
attribute value up to the first `>` is exactly `e` and the closing quote: the
opening tag ends there, whatever markup was stored. -/
theorem encodeURIComponent_attribute_safe (s e : JSString)
    (h : encodeURIComponent s = .ok e) :
    (∀ u ∈ e, isUnescaped u = true ∨ u = unit 37) ∧
    (∀ u ∈ e, u ≠ unit 34 ∧ u ≠ unit 60 ∧ u ≠ unit 62 ∧ u ≠ unit 38 ∧
      isWhiteSpace u = false) ∧
    (∀ uid d : JSString,
      hoverSpan uid e d
        = (lit "<span id=\"" ++ uid ++
            lit "\" class=\"floating-hover-target\" data-hover-content=\"") ++
          (e ++ lit "\">" ++ d ++ lit "</span>") ∧
      (e ++ lit "\">" ++ d ++ lit "</span>").takeWhile (fun u => decide (u ≠ unit 62))
        = e ++ lit "\"") := by
  have hall := isUriChar_encodeURIComponent s e h
  refine ⟨?_, fun u hu => isUriChar_safe (hall u hu), ?_⟩
  · intro u hu
    have := hall u hu
    simpa [isUriChar] using this
  · intro uid d
    constructor
    · simp [hoverSpan, List.append_assoc]
    · have e1 : e ++ lit "\">" ++ d ++ lit "</span>"
          = (e ++ lit "\"") ++ unit 62 :: (d ++ lit "</span>") := by
        have : lit "\">" = [unit 34, unit 62] := by decide
        have h2 : lit "\"" = [unit 34] := by decide
        rw [this, h2]
        simp
      rw [e1]
      apply takeWhile_append_stop
      · intro x hx
        rcases List.mem_append.mp hx with h1 | h1
        · have := (isUriChar_safe (hall x h1)).2.2.1
          simpa using this
        · have h2 : lit "\"" = [unit 34] := by decide
          rw [h2] at h1
          rw [List.mem_singleton.mp h1]
          decide
      · decide

/-- Witness for C9: the markup `<b>"a" & b</b>`. -/
theorem encodeURIComponent_attribute_safe_witness :
    encodeURIComponent (lit "<b>\"a\" & b</b>") = .ok (lit "%3Cb%3E%22a%22%20%26%20b%3C%2Fb%3E") ∧
    ((∀ u ∈ lit "%3Cb%3E%22a%22%20%26%20b%3C%2Fb%3E", isUnescaped u = true ∨ u = unit 37) ∧
    (∀ u ∈ lit "%3Cb%3E%22a%22%20%26%20b%3C%2Fb%3E",
      u ≠ unit 34 ∧ u ≠ unit 60 ∧ u ≠ unit 62 ∧ u ≠ unit 38 ∧ isWhiteSpace u = false) ∧
    (∀ uid d : JSString,
      hoverSpan uid (lit "%3Cb%3E%22a%22%20%26%20b%3C%2Fb%3E") d
        = (lit "<span id=\"" ++ uid ++
            lit "\" class=\"floating-hover-target\" data-hover-content=\"") ++
          (lit "%3Cb%3E%22a%22%20%26%20b%3C%2Fb%3E" ++ lit "\">" ++ d ++ lit "</span>") ∧
      (lit "%3Cb%3E%22a%22%20%26%20b%3C%2Fb%3E" ++ lit "\">" ++ d ++ lit "</span>").takeWhile
          (fun u => decide (u ≠ unit 62))
        = lit "%3Cb%3E%22a%22%20%26%20b%3C%2Fb%3E" ++ lit "\"")) :=
  ⟨by decide, encodeURIComponent_attribute_safe (lit "<b>\"a\" & b</b>") _ (by decide)⟩

/-- C7: for every argument list and every content, whether or not a name is
given, the `sethover` handler returns the empty string. -/
theorem sethover_returns_empty (ctx : Ctx) (args : List JSString) (content : Option JSString)
    (hoverContent : Store) :
    (sethover ctx args content hoverContent).1 = .ok (lit "") := by
  unfold sethover
  dsimp only
  split <;> rfl

/-- C3, at a non-empty body the claim covers: with the one-unit body holding the
unpaired surrogate U+D800, rendered as one paragraph and processed back to that
unit, `explain` throws `URIError` and returns no span. -/
theorem explain_unpaired_surrogate_throws :
    ([unit 0xD800] : JSString) ≠ [] ∧
    processHoverContent sampleCtx (some [unit 0xD800]) = [unit 0xD800] ∧
    explain sampleCtx (lit "0.4fzyo82mvyr") [lit "term"] (some [unit 0xD800]) emptyStore
      = (.error .uriError, emptyStore) ∧
    ¬ ∃ E : JSString,
      explain sampleCtx (lit "0.4fzyo82mvyr") [lit "term"] (some [unit 0xD800]) emptyStore
        = (.ok (lit "<span id=\"" ++ generateUniqueId (lit "0.4fzyo82mvyr") ++
            lit "\" class=\"floating-hover-target\" data-hover-content=\"" ++ E ++
            lit "\">" ++ processHoverContent sampleCtx (some (lit "term")) ++ lit "</span>"),
          emptyStore) := by
  have h : explain sampleCtx (lit "0.4fzyo82mvyr") [lit "term"] (some [unit 0xD800]) emptyStore
      = (.error .uriError, emptyStore) := by decide
  refine ⟨by decide, by decide, h, ?_⟩
  rintro ⟨E, hE⟩
  rw [h] at hE
  cases hE

/-- C3 (amended): for every display argument `p`, every non-empty content `c`
whose processed text is well-formed (holds no unpaired surrogate) and every
state of `hoverContent`, the encoding `E = encodeURIComponent(processHoverContent(c))`
exists and the `explain` handler returns exactly
`<span id="ID" class="floating-hover-target" data-hover-content="E">D</span>` with
`D = processHoverContent(p)` and `ID` the value of `generateUniqueId`, and it
leaves `hoverContent` unchanged. -/
theorem explain_returns_span (ctx : Ctx) (random36 : JSString) (args : List JSString)
    (p : Option JSString) (c : JSString) (hoverContent : Store)
    (hp : ctx.argsMap args [lit ""] (some [lit "display"]) (lit "display") = p)
    (hc : c ≠ [])
    (hw : isWellFormed (processHoverContent ctx (some c)) = true) :
    ∃ E, encodeURIComponent (processHoverContent ctx (some c)) = .ok E ∧
      explain ctx random36 args (some c) hoverContent
        = (.ok (lit "<span id=\"" ++ generateUniqueId random36 ++
            lit "\" class=\"floating-hover-target\" data-hover-content=\"" ++ E ++
            lit "\">" ++ processHoverContent ctx p ++ lit "</span>"), hoverContent) := by
  obtain ⟨E, hE⟩ := ((encodeURIComponent_eq_error_iff _).2).mpr hw
  refine ⟨E, hE, ?_⟩
  unfold explain
  simp only [truthyStr, hc, ne_eq, not_false_eq_true, decide_True, Bool.not_true,
    Bool.false_eq_true, if_false, hE, hp, hoverSpan]

/-- Witness for C3 (amended): `explain` with display `term` and body `a b`. -/
theorem explain_returns_span_witness :
    sampleCtx.argsMap [lit "term"] [lit ""] (some [lit "display"]) (lit "display")
      = some (lit "term") ∧
    lit "a b" ≠ [] ∧
    isWellFormed (processHoverContent sampleCtx (some (lit "a b"))) = true ∧
    ∃ E, encodeURIComponent (processHoverContent sampleCtx (some (lit "a b"))) = .ok E ∧
      explain sampleCtx (lit "0.4fzyo82mvyr") [lit "term"] (some (lit "a b")) emptyStore
        = (.ok (lit "<span id=\"" ++ generateUniqueId (lit "0.4fzyo82mvyr") ++
            lit "\" class=\"floating-hover-target\" data-hover-content=\"" ++ E ++
            lit "\">" ++ processHoverContent sampleCtx (some (lit "term")) ++ lit "</span>"),
          emptyStore) :=
  ⟨by decide, by decide, by decide,
    explain_returns_span sampleCtx (lit "0.4fzyo82mvyr") [lit "term"] (some (lit "term"))
      (lit "a b") emptyStore (by decide) (by decide) (by decide)⟩

theorem hoverSpan_ne_noExplainContentError (uid e d : JSString) :
    hoverSpan uid e d ≠ noExplainContentError := by
  intro h
  have h2 := congrArg (fun l => l.take 7) h
  have h3 : (hoverSpan uid e d).take 7 = lit "<span i" := by
    have : lit "<span id=\"" = lit "<span i" ++ lit "d=\"" := by decide
    simp only [hoverSpan, this, List.append_assoc]
    exact List.take_left' (by decide)
  have h4 : noExplainContentError.take 7 = lit "<span s" := by decide
  simp only [h3, h4] at h2
  exact absurd h2 (by decide)

/-- The encoding of a well-formed string exists. -/
theorem encodeURIComponent_ok_of_isWellFormed (s : JSString) (h : isWellFormed s = true) :
    ∃ e, encodeURIComponent s = .ok e :=
  ((encodeURIComponent_eq_error_iff s).2).mpr h

/-- C4, at a body that is neither missing nor empty: with the body `x` followed
by the unpaired surrogate U+DC00, `explain` throws `URIError`: it returns neither
the error string nor a span. -/
theorem explain_unpaired_surrogate_no_result :
    (some (lit "x" ++ [unit 0xDC00]) : Option JSString) ≠ none ∧
    (some (lit "x" ++ [unit 0xDC00]) : Option JSString) ≠ some [] ∧
    (explain sampleCtx (lit "0.4fzyo82mvyr") [lit "term"] (some (lit "x" ++ [unit 0xDC00]))
        emptyStore).1 = .error .uriError ∧
    ¬ ∃ r : JSString,
      (explain sampleCtx (lit "0.4fzyo82mvyr") [lit "term"] (some (lit "x" ++ [unit 0xDC00]))
        emptyStore).1 = .ok r := by
  have h : (explain sampleCtx (lit "0.4fzyo82mvyr") [lit "term"]
      (some (lit "x" ++ [unit 0xDC00])) emptyStore).1 = .error .uriError := by decide
  refine ⟨by decide, by decide, h, ?_⟩
  rintro ⟨r, hr⟩
  rw [h] at hr
  cases hr

/-- C4 (amended): `explain` returns the inline error string
`<span style="color:red">Error: No content provided in explain tag.</span>` if and
only if its content is empty (missing or the empty string); in that case the
result does not depend on the display argument; in every other case the result
is a floating-hover-target span when the processed content is well-formed, and
a thrown `URIError` when it holds an unpaired surrogate. -/
theorem explain_error_iff (ctx : Ctx) (random36 : JSString) (args : List JSString)
    (content : Option JSString) (hoverContent : Store) :
    ((explain ctx random36 args content hoverContent).1
        = .ok (lit "<span style=\"color:red\">Error: No content provided in explain tag.</span>")
      ↔ (content = none ∨ content = some [])) ∧
    ((content = none ∨ content = some []) →
      ∀ args2 : List JSString,
        explain ctx random36 args2 content hoverContent
          = explain ctx random36 args content hoverContent) ∧
    (¬ (content = none ∨ content = some []) →
      (isWellFormed (processHoverContent ctx content) = true →
        ∃ E, (explain ctx random36 args content hoverContent).1
          = .ok (lit "<span id=\"" ++ generateUniqueId random36 ++
            lit "\" class=\"floating-hover-target\" data-hover-content=\"" ++ E ++
            lit "\">" ++ processHoverContent ctx
              (ctx.argsMap args [lit ""] (some [lit "display"]) (lit "display")) ++
            lit "</span>")) ∧
      (isWellFormed (processHoverContent ctx content) = false →
        (explain ctx random36 args content hoverContent).1 = .error .uriError)) := by
  have hempty : ∀ a : List JSString, (content = none ∨ content = some []) →
      explain ctx random36 a content hoverContent = (.ok noExplainContentError, hoverContent) := by
    intro a h
    rcases h with rfl | rfl <;> rfl
  have hfull : ¬ (content = none ∨ content = some []) →
      explain ctx random36 args content hoverContent
        = (match encodeURIComponent (processHoverContent ctx content) with
          | .ok enc => (.ok (hoverSpan (generateUniqueId random36) enc
              (processHoverContent ctx
                (ctx.argsMap args [lit ""] (some [lit "display"]) (lit "display")))),
              hoverContent)
          | .error e => (.error e, hoverContent)) := by
    intro h
    cases content with
    | none => exact absurd (Or.inl rfl) h
    | some c =>
      have hc : c ≠ [] := fun hc => h (Or.inr (by rw [hc]))
      unfold explain
      simp only [truthyStr, hc, ne_eq, not_false_eq_true, decide_True, Bool.not_true,
        Bool.false_eq_true, if_false]
  refine ⟨⟨?_, ?_⟩, ?_, ?_⟩
  · intro h
    by_contra hne
    rw [hfull hne] at h
    cases henc : encodeURIComponent (processHoverContent ctx content) with
    | error e =>
      rw [henc] at h
      cases h
    | ok enc =>
      rw [henc] at h
      exact hoverSpan_ne_noExplainContentError _ _ _ (Except.ok.inj h)
  · intro h
    rw [hempty args h]
    rfl
  · intro h args2
    rw [hempty args h, hempty args2 h]
  · intro hne
    constructor
    · intro hw
      obtain ⟨e, he⟩ := encodeURIComponent_ok_of_isWellFormed _ hw
      rw [hfull hne, he]
      exact ⟨e, rfl⟩
    · intro hw
      have he := ((encodeURIComponent_eq_error_iff _).1).mpr hw
      rw [hfull hne, he]

theorem isWhiteSpace_lineFeed : ∀ u ∈ lit "\n", isWhiteSpace u = true := by
  intro u hu
  have h : lit "\n" = [unit 10] := by decide
  rw [h] at hu
  rw [List.mem_singleton.mp hu]
  decide

theorem not_hasTwoParagraphs_short (r : JSString) (h : r.length < 14) :
    ¬ HasTwoParagraphs r := by
  rintro ⟨a, b, c, d, e, hr⟩
  have hl := congrArg List.length hr
  have k1 : (lit "<p>").length = 3 := by decide
  have k2 : (lit "</p>").length = 4 := by decide
  simp only [List.length_append, k1, k2] at hl
  omega

/-- C8, on concrete runs: a one-line body rendered as `<p>hi</p>` and a line
feed gives `hi` (as a rendering without two paragraphs, and as one whose `X`
holds no `</p>`); a body rendered as the two paragraphs `<p>a</p>`, line feed,
`<p>b</p>`, line feed, is returned as rendered; a blank body gives the empty
string without a renderer call. -/
theorem processHoverContent_paragraphs_witness :
    processHoverContent sampleCtx (some (lit "hi")) = lit "hi" ∧
    processHoverContent sampleCtx (some (lit "hi")) = lit "hi" ∧
    (sampleCtx.renderSync (lit "a</p>\n<p>b") (lit "markdown") = lit "<p>a</p>\n<p>b</p>\n" ∧
      processHoverContent sampleCtx (some (lit "a</p>\n<p>b"))
        = sampleCtx.renderSync (lit "a</p>\n<p>b") (lit "markdown")) ∧
    (processHoverContent sampleCtx (some (lit "  ")) = lit "" ∧
      (processHoverContentTraced sampleCtx (some (lit "  "))).2 = []) :=
  ⟨(processHoverContent_paragraphs sampleCtx).1 (lit "hi") [] (lit "hi") (lit "\n")
      (by decide) (fun _ hu => absurd hu (List.not_mem_nil _)) isWhiteSpace_lineFeed
      (by decide) (not_hasTwoParagraphs_short _ (by decide)),
    (processHoverContent_paragraphs sampleCtx).2.1 (lit "hi") [] (lit "hi") (lit "\n")
      (by decide) (fun _ hu => absurd hu (List.not_mem_nil _)) isWhiteSpace_lineFeed
      (by decide)
      (by
        rintro ⟨u, v, h⟩
        have hl := congrArg List.length h
        have k1 : (lit "hi").length = 2 := by decide
        have k2 : (lit "</p>").length = 4 := by decide
        simp only [List.length_append, k1, k2] at hl
        omega),
    ⟨by decide,
      (processHoverContent_paragraphs sampleCtx).2.2.1 (lit "a</p>\n<p>b") (by decide)
        ⟨[], lit "a", lit "\n", lit "b", lit "\n", by decide⟩⟩,
    (processHoverContent_paragraphs sampleCtx).2.2.2 (some (lit "  "))
      (Or.inr (Or.inr ⟨lit "  ", rfl, by decide⟩))⟩

/-- A rendering whose second paragraph opens with `<p class="x">` holds one
`<p>...</p>` segment only: it is counted as one match and its outer tags are
removed. -/
theorem processHoverContent_attribute_paragraph :
    sampleCtx.renderSync (lit "a</p>\n<p class=\"x\">b") (lit "markdown")
      = lit "<p>a</p>\n<p class=\"x\">b</p>\n" ∧
    paragraphCount (lit "<p>a</p>\n<p class=\"x\">b</p>\n") = 1 ∧
    processHoverContent sampleCtx (some (lit "a</p>\n<p class=\"x\">b"))
      = lit "a</p>\n<p class=\"x\">b" := by
  refine ⟨by decide, by decide, by decide⟩

/-- C4 (amended), on concrete runs: an empty body gives the error string, the
body `a b` gives the span. -/
theorem explain_error_iff_witness :
    (explain sampleCtx (lit "0.4fzyo82mvyr") [lit "term"] (some []) emptyStore).1
      = .ok (lit "<span style=\"color:red\">Error: No content provided in explain tag.</span>") ∧
    ∃ E, (explain sampleCtx (lit "0.4fzyo82mvyr") [lit "term"] (some (lit "a b")) emptyStore).1
      = .ok (lit "<span id=\"" ++ generateUniqueId (lit "0.4fzyo82mvyr") ++
          lit "\" class=\"floating-hover-target\" data-hover-content=\"" ++ E ++
          lit "\">" ++ processHoverContent sampleCtx
            (sampleCtx.argsMap [lit "term"] [lit ""] (some [lit "display"]) (lit "display")) ++
          lit "</span>") :=
  ⟨((explain_error_iff sampleCtx (lit "0.4fzyo82mvyr") [lit "term"] (some []) emptyStore).1).mpr
      (Or.inr rfl),
    ((explain_error_iff sampleCtx (lit "0.4fzyo82mvyr") [lit "term"] (some (lit "a b"))
      emptyStore).2.2 (by decide)).1 (by decide)⟩

set_option maxRecDepth 100000 in
/-- C1, at the name `__proto__`: after `sethover name:__proto__` with body `tip`
(processed to `tip`, a non-empty string) the object holds no own property, and
`hover name:__proto__` returns a span whose `data-hover-content` is the encoding
of `[object Object]`, not of `tip`. -/
theorem hover_after_sethover_proto :
    processHoverContent sampleCtx (some (lit "tip")) = lit "tip" ∧
    encodeURIComponent (lit "tip") = .ok (lit "tip") ∧
    runSethovers sampleCtx [([lit "name:__proto__"], some (lit "tip"))] emptyStore = emptyStore ∧
    (hover sampleCtx (lit "0.4fzyo82mvyr") [lit "name:__proto__"] (some (lit "word"))
        (runSethovers sampleCtx [([lit "name:__proto__"], some (lit "tip"))] emptyStore)).1
      = .ok (lit "<span id=\"hover-4fzyo82mv\" class=\"floating-hover-target\" data-hover-content=\"%5Bobject%20Object%5D\">word</span>") := by
  refine ⟨by decide, by decide, by decide, by decide⟩

set_option maxRecDepth 100000 in
/-- C2, at the name `toString`: with nothing stored, `hover name:toString` does
not return the inline error but a floating-hover-target span carrying the text
of the inherited function. -/
theorem hover_inherited_toString :
    emptyStore.lookup (lit "toString") = none ∧
    (hover sampleCtx (lit "0.4fzyo82mvyr") [lit "name:toString"] (some (lit "word"))
        emptyStore).1
      = .ok (lit "<span id=\"hover-4fzyo82mv\" class=\"floating-hover-target\" data-hover-content=\"function%20toString()%20%7B%20%5Bnative%20code%5D%20%7D\">word</span>") ∧
    (hover sampleCtx (lit "0.4fzyo82mvyr") [lit "name:toString"] (some (lit "word"))
        emptyStore).1
      ≠ .ok (lit "<span style=\"color:red\">Error: No hover content found for name 'toString'.</span>") := by
  refine ⟨by decide, by decide, by decide⟩

/-- C6: run with only `hexo` bound around the module, the script stops at its
first statement `injectCSS(ctx)` with a `ReferenceError` for `ctx`, so no
injector and no tag is registered; and a call `f(args, content)` of any of the
three functions passed to `register` returns the inner function, not a string. -/
theorem loadScript_referenceError (styleBody scriptBody : JSString) (g : Generator) :
    loadScript ["hexo"] styleBody scriptBody g = .error (.referenceError "ctx") ∧
    ∀ (f : TagFunction) (args : List JSString) (content : Option JSString) (html : JSString),
      callRegistered f args content ≠ .html html := by
  constructor
  · rfl
  · intro f args content html h
    cases h

end HexoFloating
